import Mathlib

/-!
Shallow embedding of the `rstask` task codec (`crates/rstask-core/src/frontmatter.rs`)
and preferences loader (`crates/rstask-core/src/preferences.rs`), together with
proofs about the specified properties.

Strings are modelled as `List Char` (named `Str` below); Rust's `str::lines`,
the YAML-subset header codec used by the `TaskFrontmatter` schema, and the
styx preferences decoder are modelled explicitly and executably.
-/

/-- Strings of the Rust program are modelled as lists of characters. -/
abbrev Str := List Char

/-- Prepend a character onto the first piece of a piece list. -/
def consHead (c : Char) : List Str → List Str
  | [] => [[c]]
  | l :: ls => (c :: l) :: ls

/-- Split a string at every newline character. The result always has one more
element than the number of newline characters; it is never empty. -/
def splitNL : Str → List Str
  | [] => [[]]
  | c :: rest => if c = '\n' then [] :: splitNL rest else consHead c (splitNL rest)

/-- Join a list of lines with newline separators (no trailing newline). -/
def joinNL : List Str → Str
  | [] => []
  | [l] => l
  | l :: ls => l ++ '\n' :: joinNL ls

/-- Append a newline after every line and concatenate. -/
def unlines : List Str → Str
  | [] => []
  | l :: ls => l ++ '\n' :: unlines ls

/-- Remove a single carriage return at the end of a line, if present. -/
def stripCR (l : Str) : Str :=
  if l.getLast? = some '\r' then l.dropLast else l

/-- Model of Rust's `str::lines`: split at `\n` (treating a preceding `\r` as
part of the separator) with the final line ending optional. -/
def rustLines (s : Str) : List Str :=
  if (splitNL s).getLast? = some [] then (splitNL s).dropLast.map stripCR
  else (splitNL s).dropLast.map stripCR ++ [((splitNL s).getLast?).getD []]

/-- Drop leading newline characters, model of `trim_start_matches('\n')`. -/
def trimLeadingNL : Str → Str
  | '\n' :: rest => trimLeadingNL rest
  | s => s

/-- Boolean test that a list starts with the given pattern. -/
def startsWith : Str → Str → Bool
  | [], _ => true
  | _ :: _, [] => false
  | p :: ps, c :: cs => p == c && startsWith ps cs

/-- Modelled from the spec: timestamps are UTC instants at second precision
("timestamp (UTC, second precision, fixed-offset textual form)"); the chrono
`DateTime<Utc>` type of the missing `task.rs` is modelled as a civil-time
record. Two records denote the same instant exactly when they are equal. -/
structure DateTime where
  year : Nat
  month : Nat
  day : Nat
  hour : Nat
  minute : Nat
  second : Nat
deriving DecidableEq

/-- Validity ranges for a rendered timestamp (4-digit year, calendar fields). -/
def DateTime.Valid (d : DateTime) : Prop :=
  d.year < 10000 ∧ 1 ≤ d.month ∧ d.month ≤ 12 ∧ 1 ≤ d.day ∧ d.day ≤ 31 ∧
    d.hour < 24 ∧ d.minute < 60 ∧ d.second < 60

instance (d : DateTime) : Decidable d.Valid := by
  unfold DateTime.Valid; infer_instance

/-- Character for a single decimal digit. -/
def digToChar (d : Nat) : Char := Char.ofNat (48 + d % 10)

/-- Numeric value of a decimal digit character, if it is one. -/
def charToDig (c : Char) : Option Nat :=
  if 48 ≤ c.toNat ∧ c.toNat ≤ 57 then some (c.toNat - 48) else none

/-- Two-digit zero-padded decimal rendering. -/
def pad2 (n : Nat) : Str := [digToChar (n / 10), digToChar n]

/-- Four-digit zero-padded decimal rendering. -/
def pad4 (n : Nat) : Str :=
  [digToChar (n / 1000), digToChar (n / 100), digToChar (n / 10), digToChar n]

/-- Read two digit characters as a two-digit number. -/
def dig2 (a b : Char) : Option Nat := do
  let x ← charToDig a
  let y ← charToDig b
  pure (10 * x + y)

/-- Read four digit characters as a four-digit number. -/
def dig4 (a b c d : Char) : Option Nat := do
  let x ← charToDig a
  let y ← charToDig b
  let z ← charToDig c
  let w ← charToDig d
  pure (1000 * x + 100 * y + 10 * z + w)

/-- Modelled from the spec: the `datetime_rfc3339` serializer of the missing
`task.rs` renders a timestamp in fixed fully-qualified RFC 3339 form with a
`Z` offset, e.g. `2024-01-01T00:00:00Z`. -/
def renderTS (d : DateTime) : Str :=
  pad4 d.year ++ '-' :: pad2 d.month ++ '-' :: pad2 d.day ++ 'T' :: pad2 d.hour ++
    ':' :: pad2 d.minute ++ ':' :: pad2 d.second ++ ['Z']

/-- Modelled from the spec: parsing of the fixed-form RFC 3339 timestamp text
produced by `renderTS`, with calendar range validation. -/
def parseTS (s : Str) : Option DateTime :=
  match s with
  | [y1, y2, y3, y4, '-', m1, m2, '-', d1, d2, 'T', h1, h2, ':', n1, n2, ':', s1, s2, 'Z'] => do
    let y ← dig4 y1 y2 y3 y4
    let mo ← dig2 m1 m2
    let da ← dig2 d1 d2
    let ho ← dig2 h1 h2
    let mi ← dig2 n1 n2
    let se ← dig2 s1 s2
    let d : DateTime := ⟨y, mo, da, ho, mi, se⟩
    if d.Valid then some d else none
  | _ => none

/-- The frontmatter delimiter line, three hyphens. -/
def DELIM : Str := ("---").data

/-- Header key literals of the `TaskFrontmatter` schema. -/
def kSummary : Str := ("summary: ").data

/-- Key line opening the `tags` block sequence. -/
def kTags : Str := ("tags:").data

/-- Key literal of the `project` field. -/
def kProject : Str := ("project: ").data

/-- Key literal of the `priority` field. -/
def kPriority : Str := ("priority: ").data

/-- Key literal of the `delegatedto` field. -/
def kDelegatedto : Str := ("delegatedto: ").data

/-- Key line opening the `subtasks` block sequence. -/
def kSubtasks : Str := ("subtasks:").data

/-- Key line opening the `dependencies` block sequence. -/
def kDependencies : Str := ("dependencies:").data

/-- Key literal of the `created` field. -/
def kCreated : Str := ("created: ").data

/-- Key literal of the `resolved` field. -/
def kResolved : Str := ("resolved: ").data

/-- Key literal of the `due` field. -/
def kDue : Str := ("due: ").data

/-- Item marker of a subtask `text` entry. -/
def kSubText : Str := ("- text: ").data

/-- Indented `done` key of a subtask entry. -/
def kDone : Str := ("  done: ").data

/-- Item marker of a plain block-sequence entry. -/
def kItem : Str := ("- ").data

/-- Modelled from the spec: the subtask record of the missing `task.rs`
("subtask records (each: text + completion flag)", serialized as
`{text, done}` mappings). -/
structure SubTask where
  text : Str
  done : Bool
deriving DecidableEq

/-- Modelled from the spec and the field usage in `frontmatter.rs` lines
101-119: the task record of the missing `task.rs`, with its five transient
fields and its persistable fields. (Named `RsTask` because `Task` is taken
by the Lean core library.) -/
structure RsTask where
  uuid : Str
  status : Str
  write_pending : Bool
  id : Int
  deleted : Bool
  summary : Str
  notes : Str
  tags : List Str
  project : Str
  priority : Str
  delegated_to : Str
  subtasks : List SubTask
  dependencies : List Str
  created : DateTime
  resolved : Option DateTime
  due : Option DateTime
  filtered : Bool
deriving DecidableEq

/-- The intermediate header record of `frontmatter.rs` (struct
`TaskFrontmatter`): optional keys are `none` when omitted. -/
structure TaskFrontmatter where
  summary : Str
  tags : Option (List Str)
  project : Option Str
  priority : Option Str
  delegatedto : Option Str
  subtasks : Option (List SubTask)
  dependencies : Option (List Str)
  created : DateTime
  resolved : Option DateTime
  due : Option DateTime
deriving DecidableEq

/-- Error type of the codec: `RstaskError::Parse` with its message, and
`RstaskError::Yaml` for structured-header decode/encode failures. -/
inductive RstaskError where
  | parse (msg : Str)
  | yaml
deriving DecidableEq

/-- Classification of one header line by the YAML-subset grammar that the
`TaskFrontmatter` schema uses (model of what `serde_yaml` accepts on the
output shapes the emitter produces). -/
inductive HLine where
  | blank
  | summary (v : Str)
  | tagsKey
  | project (v : Str)
  | priority (v : Str)
  | delegatedto (v : Str)
  | subtasksKey
  | dependenciesKey
  | created (v : Str)
  | resolved (v : Str)
  | due (v : Str)
  | subText (v : Str)
  | subDoneRaw (v : Str)
  | item (v : Str)
  | other
deriving DecidableEq

/-- Classify a header line. -/
def classify (l : Str) : HLine :=
  if l = [] then .blank
  else if startsWith kSummary l then .summary (l.drop 9)
  else if l = kTags then .tagsKey
  else if startsWith kProject l then .project (l.drop 9)
  else if startsWith kPriority l then .priority (l.drop 10)
  else if startsWith kDelegatedto l then .delegatedto (l.drop 13)
  else if l = kSubtasks then .subtasksKey
  else if l = kDependencies then .dependenciesKey
  else if startsWith kCreated l then .created (l.drop 9)
  else if startsWith kResolved l then .resolved (l.drop 10)
  else if startsWith kDue l then .due (l.drop 5)
  else if startsWith kSubText l then .subText (l.drop 8)
  else if startsWith kDone l then .subDoneRaw (l.drop 8)
  else if startsWith kItem l then .item (l.drop 2)
  else .other

/-- Render of a YAML boolean. -/
def boolStr (b : Bool) : Str := if b then ("true").data else ("false").data

/-- Read of a YAML boolean. -/
def parseBool (s : Str) : Option Bool :=
  if s = ("true").data then some true
  else if s = ("false").data then some false
  else none

/-- Partially accumulated header fields during parsing. -/
structure FMState where
  summary : Option Str := none
  tags : Option (List Str) := none
  project : Option Str := none
  priority : Option Str := none
  delegatedto : Option Str := none
  subtasks : Option (List SubTask) := none
  dependencies : Option (List Str) := none
  created : Option DateTime := none
  resolved : Option DateTime := none
  due : Option DateTime := none
deriving DecidableEq

/-- The empty parse state. -/
def initFM : FMState := {}

/-- Parsing mode: at top level, or inside one of the three block sequences
(`tags`, `dependencies`, `subtasks`; in the last, possibly between a
`- text:` line and its `  done:` line). -/
inductive PMode where
  | top
  | inTags (acc : List Str)
  | inDeps (acc : List Str)
  | inSub (acc : List SubTask)
  | inSubDone (acc : List SubTask) (text : Str)
deriving DecidableEq

/-- Record a finished `tags` block: empty = key with null value = `none`. -/
def flushTags (st : FMState) (acc : List Str) : FMState :=
  { st with tags := if acc = [] then none else some acc }

/-- Record a finished `dependencies` block. -/
def flushDeps (st : FMState) (acc : List Str) : FMState :=
  { st with dependencies := if acc = [] then none else some acc }

/-- Record a finished `subtasks` block. -/
def flushSub (st : FMState) (acc : List SubTask) : FMState :=
  { st with subtasks := if acc = [] then none else some acc }

/-- Handle one top-level header line: recognized `key: value` lines set their
field once (a duplicate key is a decode error), the three sequence keys open
a block, blank lines are skipped, anything else is a decode error. -/
def handleTop (st : FMState) (l : Str) : Option (FMState × PMode) :=
  match classify l with
  | .blank => some (st, .top)
  | .summary v =>
    match st.summary with
    | some _ => none
    | none => some ({ st with summary := some v }, .top)
  | .tagsKey =>
    match st.tags with
    | some _ => none
    | none => some (st, .inTags [])
  | .project v =>
    match st.project with
    | some _ => none
    | none => some ({ st with project := some v }, .top)
  | .priority v =>
    match st.priority with
    | some _ => none
    | none => some ({ st with priority := some v }, .top)
  | .delegatedto v =>
    match st.delegatedto with
    | some _ => none
    | none => some ({ st with delegatedto := some v }, .top)
  | .subtasksKey =>
    match st.subtasks with
    | some _ => none
    | none => some (st, .inSub [])
  | .dependenciesKey =>
    match st.dependencies with
    | some _ => none
    | none => some (st, .inDeps [])
  | .created v =>
    match st.created, parseTS v with
    | none, some dt => some ({ st with created := some dt }, .top)
    | _, _ => none
  | .resolved v =>
    match st.resolved, parseTS v with
    | none, some dt => some ({ st with resolved := some dt }, .top)
    | _, _ => none
  | .due v =>
    match st.due, parseTS v with
    | none, some dt => some ({ st with due := some dt }, .top)
    | _, _ => none
  | .subText _ => none
  | .subDoneRaw _ => none
  | .item _ => none
  | .other => none

/-- Handle one header line in the current mode: block items extend the open
block, any other line closes it and is re-handled at top level. -/
def handleLine (st : FMState) (mode : PMode) (l : Str) : Option (FMState × PMode) :=
  match mode with
  | .top => handleTop st l
  | .inTags acc =>
    match classify l with
    | .item v => some (st, .inTags (acc ++ [v]))
    | _ => handleTop (flushTags st acc) l
  | .inDeps acc =>
    match classify l with
    | .item v => some (st, .inDeps (acc ++ [v]))
    | _ => handleTop (flushDeps st acc) l
  | .inSub acc =>
    match classify l with
    | .subText v => some (st, .inSubDone acc v)
    | _ => handleTop (flushSub st acc) l
  | .inSubDone acc v =>
    match classify l with
    | .subDoneRaw braw =>
      (match parseBool braw with
      | some b => some (st, .inSub (acc ++ [⟨v, b⟩]))
      | none => none)
    | _ => none

/-- End of input: close any open block (a dangling `- text:` line is a decode
error) and require the mandatory `summary` and `created` fields. -/
def finalizeFM (st : FMState) (mode : PMode) : Option TaskFrontmatter :=
  match
    (match mode with
    | .top => some st
    | .inTags acc => some (flushTags st acc)
    | .inDeps acc => some (flushDeps st acc)
    | .inSub acc => some (flushSub st acc)
    | .inSubDone _ _ => none) with
  | none => none
  | some st2 =>
    match st2.summary, st2.created with
    | some s, some c =>
      some ⟨s, st2.tags, st2.project, st2.priority, st2.delegatedto, st2.subtasks,
        st2.dependencies, c, st2.resolved, st2.due⟩
    | _, _ => none

/-- Parse the header lines into a `TaskFrontmatter` (model of
`serde_yaml::from_str::<TaskFrontmatter>` on the block-style subset the
schema uses). -/
def parseFMLines (st : FMState) (mode : PMode) : List Str → Option TaskFrontmatter
  | [] => finalizeFM st mode
  | l :: rest =>
    match handleLine st mode l with
    | some (st2, m2) => parseFMLines st2 m2 rest
    | none => none

/-- Model of `serde_yaml::from_str::<TaskFrontmatter>` on a header string. -/
def parseFrontmatter (s : Str) : Option TaskFrontmatter :=
  parseFMLines initFM .top (splitNL s)

/-- Lines contributed by an optional header field. -/
def optLines {α : Type} (o : Option α) (f : α → List Str) : List Str :=
  match o with
  | none => []
  | some a => f a

/-- Header lines emitted for a `TaskFrontmatter`, in declared field order,
skipping `none` fields (model of `serde_yaml::to_string` on this schema for
plain scalar values). -/
def yamlLines (fm : TaskFrontmatter) : List Str :=
  (kSummary ++ fm.summary) ::
    (optLines fm.tags (fun ts => kTags :: ts.map (fun t => kItem ++ t)) ++
      (optLines fm.project (fun p => [kProject ++ p]) ++
        (optLines fm.priority (fun p => [kPriority ++ p]) ++
          (optLines fm.delegatedto (fun p => [kDelegatedto ++ p]) ++
            (optLines fm.subtasks (fun sts => kSubtasks ::
                (sts.map (fun s => [kSubText ++ s.text, kDone ++ boolStr s.done])).flatten) ++
              (optLines fm.dependencies
                  (fun ds => kDependencies :: ds.map (fun t => kItem ++ t)) ++
                ((kCreated ++ renderTS fm.created) ::
                  (optLines fm.resolved (fun r => [kResolved ++ renderTS r]) ++
                    optLines fm.due (fun r => [kDue ++ renderTS r])))))))))

/-- Model of `serde_yaml::to_string` for the `TaskFrontmatter` schema: the
emitted document, one line per scalar entry, with a trailing newline. -/
def serde_yaml_to_string (fm : TaskFrontmatter) : Str := unlines (yamlLines fm)

/-- The frontmatter record built from a task (`frontmatter.rs` lines 10-45):
every empty collection/string becomes `none`. -/
def taskFM (t : RsTask) : TaskFrontmatter :=
  { summary := t.summary
    tags := if t.tags.isEmpty then none else some t.tags
    project := if t.project.isEmpty then none else some t.project
    priority := if t.priority.isEmpty then none else some t.priority
    delegatedto := if t.delegated_to.isEmpty then none else some t.delegated_to
    subtasks := if t.subtasks.isEmpty then none else some t.subtasks
    dependencies := if t.dependencies.isEmpty then none else some t.dependencies
    created := t.created
    resolved := t.resolved
    due := t.due }

/-- Model of `task_to_markdown` (`frontmatter.rs` lines 8-62). -/
def task_to_markdown (t : RsTask) : Except RstaskError Str :=
  let yaml_frontmatter := serde_yaml_to_string (taskFM t)
  let r1 := ("---\n").data ++ yaml_frontmatter ++ ("---\n").data
  let r2 :=
    if t.notes.isEmpty then r1
    else r1 ++ '\n' :: (t.notes ++ (if t.notes.getLast? = some '\n' then [] else ['\n']))
  Except.ok r2

/-- Index of the first delimiter line (model of
`lines[1..].iter().position(|&line| line == "---")`). -/
def findDelim : List Str → Option Nat
  | [] => none
  | l :: ls => if l = DELIM then some 0 else (findDelim ls).map (· + 1)

/-- The task assembled from a parsed header, the caller-supplied transient
fields, and the extracted notes (`frontmatter.rs` lines 101-119). -/
def buildTask (fm : TaskFrontmatter) (uuid status : Str) (id : Int) (notes : Str) : RsTask :=
  { uuid := uuid
    status := status
    write_pending := false
    id := id
    deleted := false
    summary := fm.summary
    notes := notes
    tags := fm.tags.getD []
    project := fm.project.getD []
    priority := fm.priority.getD []
    delegated_to := fm.delegatedto.getD []
    subtasks := fm.subtasks.getD []
    dependencies := fm.dependencies.getD []
    created := fm.created
    resolved := fm.resolved
    due := fm.due
    filtered := false }

/-- Model of `task_from_markdown` (`frontmatter.rs` lines 65-122). -/
def task_from_markdown (content uuid status : Str) (id : Int) : Except RstaskError RsTask :=
  match rustLines content with
  | [] => .error (.parse ("missing frontmatter delimiter").data)
  | l0 :: rest =>
    if l0 ≠ DELIM then .error (.parse ("missing frontmatter delimiter").data)
    else
      match findDelim rest with
      | none => .error (.parse ("missing closing frontmatter delimiter").data)
      | some closing_idx =>
        let frontmatter_str := joinNL (rest.take closing_idx)
        let notes :=
          if closing_idx + 1 < rest.length
          then trimLeadingNL (joinNL (rest.drop (closing_idx + 1)))
          else []
        match parseFrontmatter frontmatter_str with
        | none => .error .yaml
        | some fm => .ok (buildTask fm uuid status id notes)

/-- The sync-frequency setting (`preferences.rs` lines 5-10). -/
inductive SyncFrequency where
  | never
  | afterEveryModification
deriving DecidableEq

/-- The enum-level default (`impl Default for SyncFrequency`, lines 13-17). -/
def SyncFrequency.default : SyncFrequency := .never

/-- The bulk-commit-strategy setting (`preferences.rs` lines 19-24). -/
inductive BulkCommitStrategy where
  | single
  | perTask
deriving DecidableEq

/-- The enum-level default (`impl Default for BulkCommitStrategy`, lines 27-31):
`Single`. -/
def BulkCommitStrategy.default : BulkCommitStrategy := .single

/-- The preferences record (`preferences.rs` lines 33-39). -/
structure Preferences where
  sync_frequency : SyncFrequency
  bulk_commit_strategy : BulkCommitStrategy
deriving DecidableEq

/-- The record-level default (`impl Default for Preferences`, lines 41-48):
note that it sets `bulk_commit_strategy := perTask`, unlike the enum's own
default. -/
def Preferences.default : Preferences :=
  { sync_frequency := .never, bulk_commit_strategy := .perTask }

/-- Read a `sync_frequency` value (snake_case rename of the variants). -/
def parseSyncFrequency (v : Str) : Option SyncFrequency :=
  if v = ("never").data then some .never
  else if v = ("after_every_modification").data then some .afterEveryModification
  else none

/-- Read a `bulk_commit_strategy` value (snake_case rename of the variants). -/
def parseBulkCommitStrategy (v : Str) : Option BulkCommitStrategy :=
  if v = ("single").data then some .single
  else if v = ("per_task").data then some .perTask
  else none

/-- Modelled from the spec: the `serde_styx` decode of the `Preferences`
struct ("a distinct lightweight key-value text format"; recognized keys set
the fields, "Unknown keys ignored; absent keys default"). Absent fields take
the field-level `#[serde(default)]`, which is each enum's own default. -/
def goPrefs : List Str → Option SyncFrequency → Option BulkCommitStrategy → Option Preferences
  | [], sf, bc =>
    some { sync_frequency := sf.getD SyncFrequency.default,
           bulk_commit_strategy := bc.getD BulkCommitStrategy.default }
  | l :: rest, sf, bc =>
    if l = [] then goPrefs rest sf bc
    else if startsWith (("sync_frequency: ").data) l then
      match parseSyncFrequency (l.drop 16) with
      | some x => goPrefs rest (some x) bc
      | none => none
    else if startsWith (("bulk_commit_strategy: ").data) l then
      match parseBulkCommitStrategy (l.drop 22) with
      | some x => goPrefs rest sf (some x)
      | none => none
    else if l.contains ':' then goPrefs rest sf bc
    else none

/-- Modelled from the spec: `serde_styx::from_str::<Preferences>` over the
whole file content. -/
def decodePreferences (content : Str) : Option Preferences :=
  goPrefs (splitNL content) none none

/-- The config-file path under a config directory
(`Preferences::config_path`, lines 51-53). -/
def Preferences.configPathOf (configDir : Str) : Str :=
  configDir ++ ("/rstask/config.styx").data

/-- Model of `Preferences::load` (lines 56-68). The platform lookup
`dirs::config_dir()` and the filesystem read `fs::read_to_string` are
passed in as the environment: `configDir` is the optional platform config
directory and `readFile` returns a file's text or `none` on any read error. -/
def Preferences.load (configDir : Option Str) (readFile : Str → Option Str) : Preferences :=
  match configDir with
  | none => Preferences.default
  | some dir =>
    match readFile (Preferences.configPathOf dir) with
    | none => Preferences.default
    | some content => (decodePreferences content).getD Preferences.default

instance {e a : Type} [DecidableEq e] [DecidableEq a] : DecidableEq (Except e a) := fun x y =>
  match x, y with
  | .ok u, .ok v => if h : u = v then isTrue (by rw [h]) else isFalse (by simp [h])
  | .error u, .error v => if h : u = v then isTrue (by rw [h]) else isFalse (by simp [h])
  | .ok _, .error _ => isFalse (by simp)
  | .error _, .ok _ => isFalse (by simp)

/-- A line list whose head (if any) is neither a plain sequence item nor a
subtask `- text:` item, so it closes any open block. -/
def SafeHead (ls : List Str) : Prop :=
  ∀ l rs, ls = l :: rs → (∀ v, classify l ≠ .item v) ∧ (∀ v, classify l ≠ .subText v)

/-- A string that survives the line-based codec verbatim: no newline (it
would split the line) and no carriage return (`str::lines` strips one before
a line ending). -/
def cleanStr (s : Str) : Prop := '\n' ∉ s ∧ '\r' ∉ s

instance (s : Str) : Decidable (cleanStr s) := by
  unfold cleanStr
  infer_instance

/-- Well-formedness of a task's field values for the round-trip theorem: the
string fields contain no newline or carriage return (and sequence items no
colon), the timestamps are calendar-valid, and the notes neither begin nor
end with a newline. -/
def TaskWF (t : RsTask) : Prop :=
  cleanStr t.summary ∧
  (∀ x ∈ t.tags, cleanStr x ∧ ':' ∉ x) ∧
  cleanStr t.project ∧
  cleanStr t.priority ∧
  cleanStr t.delegated_to ∧
  (∀ s ∈ t.subtasks, cleanStr s.text) ∧
  (∀ x ∈ t.dependencies, cleanStr x ∧ ':' ∉ x) ∧
  t.created.Valid ∧
  (∀ r, t.resolved = some r → r.Valid) ∧
  (∀ r, t.due = some r → r.Valid) ∧
  t.notes.head? ≠ some '\n' ∧
  t.notes.getLast? ≠ some '\n' ∧
  '\r' ∉ t.notes

instance (t : RsTask) : Decidable (TaskWF t) := by
  unfold TaskWF
  infer_instance

/-- A header line that uses none of the optional keys: blank, a `summary`
line, or a `created` line whose timestamp value parses. -/
def keyFreeLine (l : Str) : Bool :=
  match classify l with
  | .blank => true
  | .summary _ => true
  | .created v => (parseTS v).isSome
  | _ => false

/-- Number of `summary` lines in a header. -/
def summaryCount (hs : List Str) : Nat :=
  hs.countP (fun l => match classify l with | .summary _ => true | _ => false)

/-- Number of `created` lines in a header. -/
def createdCount (hs : List Str) : Nat :=
  hs.countP (fun l => match classify l with | .created _ => true | _ => false)

theorem splitNL_ne_nil (s : Str) : splitNL s ≠ [] := by
  induction s with
  | nil => simp [splitNL]
  | cons c rest ih =>
    simp only [splitNL]
    split
    · simp
    · cases s' : splitNL rest with
      | nil => exact absurd s' ih
      | cons l ls => simp [consHead]

theorem joinNL_consHead (c : Char) (ls : List Str) (h : ls ≠ []) :
    joinNL (consHead c ls) = c :: joinNL ls := by
  cases ls with
  | nil => exact absurd rfl h
  | cons l ls' => cases ls' <;> simp [consHead, joinNL]

theorem joinNL_splitNL (s : Str) : joinNL (splitNL s) = s := by
  induction s with
  | nil => simp [splitNL, joinNL]
  | cons c rest ih =>
    simp only [splitNL]
    split
    · rename_i h
      subst h
      cases s' : splitNL rest with
      | nil => exact absurd s' (splitNL_ne_nil rest)
      | cons l ls =>
        rw [s'] at ih
        cases ls <;> simp_all [joinNL]
    · rw [joinNL_consHead c _ (splitNL_ne_nil rest), ih]

theorem splitNL_no_nl (l : Str) (h : '\n' ∉ l) : splitNL l = [l] := by
  induction l with
  | nil => simp [splitNL]
  | cons c rest ih =>
    have hc : ¬c = '\n' := fun hh => h (by simp [hh])
    have hr : '\n' ∉ rest := fun hh => h (by simp [hh])
    simp only [splitNL, if_neg hc, ih hr, consHead]

theorem splitNL_append_nl (l t : Str) (h : '\n' ∉ l) :
    splitNL (l ++ '\n' :: t) = l :: splitNL t := by
  induction l with
  | nil => simp [splitNL]
  | cons c rest ih =>
    have hc : ¬c = '\n' := fun hh => h (by simp [hh])
    have hr : '\n' ∉ rest := fun hh => h (by simp [hh])
    simp only [List.cons_append, List.append_eq, splitNL, if_neg hc, ih hr, consHead]

theorem splitNL_unlines (ls : List Str) (h : ∀ l ∈ ls, '\n' ∉ l) :
    splitNL (unlines ls) = ls ++ [[]] := by
  induction ls with
  | nil => simp [unlines, splitNL]
  | cons l rest ih =>
    simp only [unlines]
    rw [splitNL_append_nl l _ (h l (by simp)), ih (fun x hx => h x (by simp [hx]))]
    simp

theorem mem_splitNL_no_nl (s : Str) : ∀ l ∈ splitNL s, '\n' ∉ l := by
  induction s with
  | nil => simp [splitNL]
  | cons c rest ih =>
    intro l hl
    by_cases hc : c = '\n'
    · subst hc
      rw [splitNL, if_pos rfl] at hl
      rcases List.mem_cons.mp hl with rfl | hl'
      · simp
      · exact ih l hl'
    · rw [splitNL, if_neg hc] at hl
      cases s' : splitNL rest with
      | nil => exact absurd s' (splitNL_ne_nil rest)
      | cons p ps =>
        rw [s'] at hl
        simp only [consHead] at hl
        rcases List.mem_cons.mp hl with rfl | hl'
        · have hp := ih p (by rw [s']; exact List.mem_cons_self p ps)
          intro h10
          rcases List.mem_cons.mp h10 with h10' | h10'
          · exact hc h10'.symm
          · exact hp h10'
        · exact ih l (by rw [s']; exact List.mem_cons_of_mem p hl')

theorem mem_splitNL_mem (s : Str) : ∀ l ∈ splitNL s, ∀ c ∈ l, c ∈ s := by
  induction s with
  | nil => simp [splitNL]
  | cons c rest ih =>
    intro l hl d hd
    by_cases hc : c = '\n'
    · subst hc
      rw [splitNL, if_pos rfl] at hl
      rcases List.mem_cons.mp hl with rfl | hl'
      · simp at hd
      · exact List.mem_cons_of_mem _ (ih l hl' d hd)
    · rw [splitNL, if_neg hc] at hl
      cases s' : splitNL rest with
      | nil => exact absurd s' (splitNL_ne_nil rest)
      | cons p ps =>
        rw [s'] at hl
        simp only [consHead] at hl
        rcases List.mem_cons.mp hl with rfl | hl'
        · rcases List.mem_cons.mp hd with rfl | hd'
          · exact List.mem_cons_self d rest
          · exact List.mem_cons_of_mem _
              (ih p (by rw [s']; exact List.mem_cons_self p ps) d hd')
        · exact List.mem_cons_of_mem _
            (ih l (by rw [s']; exact List.mem_cons_of_mem p hl') d hd)

theorem rustLines_unlines (ls : List Str)
    (h : ∀ l ∈ ls, '\n' ∉ l ∧ l.getLast? ≠ some '\r') :
    rustLines (unlines ls) = ls := by
  unfold rustLines
  rw [splitNL_unlines ls (fun l hl => (h l hl).1)]
  rw [if_pos (by simp)]
  rw [List.dropLast_concat]
  have : ∀ l ∈ ls, stripCR l = l := by
    intro l hl
    unfold stripCR
    rw [if_neg (h l hl).2]
  calc ls.map stripCR = ls.map id := List.map_congr_left this
    _ = ls := List.map_id ls

theorem trimLeadingNL_of_head (s : Str) (h : s.head? ≠ some '\n') :
    trimLeadingNL s = s := by
  cases s with
  | nil => simp [trimLeadingNL]
  | cons c rest =>
    unfold trimLeadingNL
    split
    · simp_all
    · rfl

theorem trimLeadingNL_cons_nl (s : Str) : trimLeadingNL ('\n' :: s) = trimLeadingNL s := rfl

theorem startsWith_append_self (p v : Str) : startsWith p (p ++ v) = true := by
  induction p with
  | nil => simp [startsWith]
  | cons c cs ih => simp [startsWith, ih]

theorem startsWith_drop (p l : Str) (h : startsWith p l = true) :
    l = p ++ l.drop p.length := by
  induction p generalizing l with
  | nil => simp
  | cons c cs ih =>
    cases l with
    | nil => simp [startsWith] at h
    | cons d ds =>
      simp only [startsWith, Bool.and_eq_true, beq_iff_eq] at h
      obtain ⟨rfl, h2⟩ := h
      simpa using ih ds h2

theorem charToDig_digToChar (d : Nat) : charToDig (digToChar d) = some (d % 10) := by
  have h : d % 10 < 10 := Nat.mod_lt _ (by omega)
  unfold digToChar charToDig
  interval_cases h10 : d % 10 <;> decide

theorem dig2_pad2 (n : Nat) (h : n < 100) :
    dig2 (digToChar (n / 10)) (digToChar n) = some n := by
  simp only [dig2, charToDig_digToChar, Option.bind_eq_bind, Option.some_bind]
  have : 10 * (n / 10 % 10) + n % 10 = n := by omega
  simp [this]

theorem dig4_pad4 (n : Nat) (h : n < 10000) :
    dig4 (digToChar (n / 1000)) (digToChar (n / 100)) (digToChar (n / 10))
      (digToChar n) = some n := by
  simp only [dig4, charToDig_digToChar, Option.bind_eq_bind, Option.some_bind]
  have : 1000 * (n / 1000 % 10) + 100 * (n / 100 % 10) + 10 * (n / 10 % 10) + n % 10 = n := by
    omega
  simp [this]

theorem parseTS_renderTS (d : DateTime) (h : d.Valid) : parseTS (renderTS d) = some d := by
  obtain ⟨h1, h2, h3, h4, h5, h6, h7, h8⟩ := h
  show parseTS
      [digToChar (d.year / 1000), digToChar (d.year / 100), digToChar (d.year / 10),
       digToChar d.year, '-', digToChar (d.month / 10), digToChar d.month, '-',
       digToChar (d.day / 10), digToChar d.day, 'T', digToChar (d.hour / 10),
       digToChar d.hour, ':', digToChar (d.minute / 10), digToChar d.minute, ':',
       digToChar (d.second / 10), digToChar d.second, 'Z'] = some d
  simp only [parseTS]
  rw [dig4_pad4 d.year h1, dig2_pad2 d.month (by omega), dig2_pad2 d.day (by omega),
    dig2_pad2 d.hour (by omega), dig2_pad2 d.minute (by omega),
    dig2_pad2 d.second (by omega)]
  simp only [Option.bind_eq_bind, Option.some_bind]
  rw [if_pos ⟨h1, h2, h3, h4, h5, h6, h7, h8⟩]

example :
    task_from_markdown
      (("---\nsummary: Test task\ntags:\n- tag1\n- tag2\nproject: myproject\npriority: H\ncreated: 2024-01-01T00:00:00Z\n---\n\nThis is a note\nWith multiple lines").data)
      (("test-uuid").data) (("pending").data) 1 =
    Except.ok
      { uuid := ("test-uuid").data
        status := ("pending").data
        write_pending := false
        id := 1
        deleted := false
        summary := ("Test task").data
        notes := ("This is a note\nWith multiple lines").data
        tags := [("tag1").data, ("tag2").data]
        project := ("myproject").data
        priority := ("H").data
        delegated_to := []
        subtasks := []
        dependencies := []
        created := ⟨2024, 1, 1, 0, 0, 0⟩
        resolved := none
        due := none
        filtered := false } := by
  decide

example :
    task_to_markdown
      { uuid := ("test-uuid").data
        status := ("pending").data
        write_pending := false
        id := 1
        deleted := false
        summary := ("Test task").data
        notes := ("This is a note\nWith multiple lines").data
        tags := [("tag1").data, ("tag2").data]
        project := ("myproject").data
        priority := ("H").data
        delegated_to := []
        subtasks := []
        dependencies := []
        created := ⟨2024, 1, 1, 0, 0, 0⟩
        resolved := none
        due := none
        filtered := false } =
    Except.ok
      (("---\nsummary: Test task\ntags:\n- tag1\n- tag2\nproject: myproject\npriority: H\ncreated: 2024-01-01T00:00:00Z\n---\n\nThis is a note\nWith multiple lines\n").data) := by
  decide

theorem take_len_append {α : Type} (A B : List α) : (A ++ B).take A.length = A := by
  induction A with
  | nil => simp
  | cons a as ih => simp [ih]

theorem drop_len_append {α : Type} (A B : List α) : (A ++ B).drop A.length = B := by
  induction A with
  | nil => simp
  | cons a as ih => simp [ih]

theorem mem_of_getLast_eq {α : Type} (l : List α) (a : α) (h : l.getLast? = some a) :
    a ∈ l := by
  induction l with
  | nil => simp at h
  | cons x xs ih =>
    cases xs with
    | nil => simp_all [List.getLast?]
    | cons y ys =>
      rw [List.getLast?_cons_cons] at h
      exact List.mem_cons_of_mem _ (ih h)

theorem unlines_append (A B : List Str) : unlines (A ++ B) = unlines A ++ unlines B := by
  induction A with
  | nil => simp [unlines]
  | cons a as ih => simp [unlines, ih]

theorem unlines_eq_joinNL (ls : List Str) (h : ls ≠ []) :
    unlines ls = joinNL ls ++ ['\n'] := by
  induction ls with
  | nil => exact absurd rfl h
  | cons l rest ih =>
    cases rest with
    | nil => simp [unlines, joinNL]
    | cons r rs =>
      rw [show unlines (l :: r :: rs) = l ++ '\n' :: unlines (r :: rs) from rfl]
      rw [ih (by simp)]
      rw [show joinNL (l :: r :: rs) = l ++ '\n' :: joinNL (r :: rs) from rfl]
      simp

theorem findDelim_append (hs bs : List Str) (h : DELIM ∉ hs) :
    findDelim (hs ++ DELIM :: bs) = some hs.length := by
  induction hs with
  | nil => simp [findDelim, DELIM]
  | cons l ls ih =>
    have h1 : l ≠ DELIM := fun hh => h (by simp [hh])
    have h2 : DELIM ∉ ls := fun hh => h (by simp [hh])
    simp [findDelim, h1, ih h2]

theorem classify_summary_line (v : Str) :
    classify (kSummary ++ v) = .summary v := rfl

theorem classify_tags_line : classify kTags = .tagsKey := rfl

theorem classify_project_line (v : Str) :
    classify (kProject ++ v) = .project v := rfl

theorem classify_priority_line (v : Str) :
    classify (kPriority ++ v) = .priority v := rfl

theorem classify_delegatedto_line (v : Str) :
    classify (kDelegatedto ++ v) = .delegatedto v := rfl

theorem classify_subtasks_line : classify kSubtasks = .subtasksKey := rfl

theorem classify_dependencies_line : classify kDependencies = .dependenciesKey := rfl

theorem classify_created_line (v : Str) :
    classify (kCreated ++ v) = .created v := rfl

theorem classify_resolved_line (v : Str) :
    classify (kResolved ++ v) = .resolved v := rfl

theorem classify_due_line (v : Str) :
    classify (kDue ++ v) = .due v := rfl

theorem classify_subtext_line (v : Str) :
    classify (kSubText ++ v) = .subText v := rfl

theorem classify_done_line (v : Str) :
    classify (kDone ++ v) = .subDoneRaw v := rfl

theorem classify_item_line (v : Str) (h : startsWith (("text: ").data) v = false) :
    classify (kItem ++ v) = .item v := by
  unfold classify
  rw [show startsWith kSubText (kItem ++ v) = false from h]
  rfl

theorem parseBool_boolStr (b : Bool) : parseBool (boolStr b) = some b := by
  cases b <;> rfl

theorem tags_none_eta (st : FMState) (h : st.tags = none) : { st with tags := none } = st := by
  obtain ⟨f1, f2, f3, f4, f5, f6, f7, f8, f9, f10⟩ := st
  simp_all

theorem project_none_eta (st : FMState) (h : st.project = none) :
    { st with project := none } = st := by
  obtain ⟨f1, f2, f3, f4, f5, f6, f7, f8, f9, f10⟩ := st
  simp_all

theorem priority_none_eta (st : FMState) (h : st.priority = none) :
    { st with priority := none } = st := by
  obtain ⟨f1, f2, f3, f4, f5, f6, f7, f8, f9, f10⟩ := st
  simp_all

theorem delegatedto_none_eta (st : FMState) (h : st.delegatedto = none) :
    { st with delegatedto := none } = st := by
  obtain ⟨f1, f2, f3, f4, f5, f6, f7, f8, f9, f10⟩ := st
  simp_all

theorem subtasks_none_eta (st : FMState) (h : st.subtasks = none) :
    { st with subtasks := none } = st := by
  obtain ⟨f1, f2, f3, f4, f5, f6, f7, f8, f9, f10⟩ := st
  simp_all

theorem dependencies_none_eta (st : FMState) (h : st.dependencies = none) :
    { st with dependencies := none } = st := by
  obtain ⟨f1, f2, f3, f4, f5, f6, f7, f8, f9, f10⟩ := st
  simp_all

theorem resolved_none_eta (st : FMState) (h : st.resolved = none) :
    { st with resolved := none } = st := by
  obtain ⟨f1, f2, f3, f4, f5, f6, f7, f8, f9, f10⟩ := st
  simp_all

theorem due_none_eta (st : FMState) (h : st.due = none) : { st with due := none } = st := by
  obtain ⟨f1, f2, f3, f4, f5, f6, f7, f8, f9, f10⟩ := st
  simp_all

theorem parseFMLines_flushTags (st : FMState) (acc : List Str) (rest : List Str)
    (h : ∀ l rs, rest = l :: rs → ∀ v, classify l ≠ .item v) :
    parseFMLines st (.inTags acc) rest = parseFMLines (flushTags st acc) .top rest := by
  cases rest with
  | nil => rfl
  | cons l rs =>
    conv_lhs => rw [parseFMLines]
    conv_rhs => rw [parseFMLines]
    have hne := h l rs rfl
    cases hc : classify l <;> simp_all [handleLine]

theorem parseFMLines_flushDeps (st : FMState) (acc : List Str) (rest : List Str)
    (h : ∀ l rs, rest = l :: rs → ∀ v, classify l ≠ .item v) :
    parseFMLines st (.inDeps acc) rest = parseFMLines (flushDeps st acc) .top rest := by
  cases rest with
  | nil => rfl
  | cons l rs =>
    conv_lhs => rw [parseFMLines]
    conv_rhs => rw [parseFMLines]
    have hne := h l rs rfl
    cases hc : classify l <;> simp_all [handleLine]

theorem parseFMLines_flushSub (st : FMState) (acc : List SubTask) (rest : List Str)
    (h : ∀ l rs, rest = l :: rs → ∀ v, classify l ≠ .subText v) :
    parseFMLines st (.inSub acc) rest = parseFMLines (flushSub st acc) .top rest := by
  cases rest with
  | nil => rfl
  | cons l rs =>
    conv_lhs => rw [parseFMLines]
    conv_rhs => rw [parseFMLines]
    have hne := h l rs rfl
    cases hc : classify l <;> simp_all [handleLine]

theorem parseFMLines_tagItems (st : FMState) (ts : List Str) (acc rest : List Str)
    (hts : ∀ t ∈ ts, classify (kItem ++ t) = .item t) :
    parseFMLines st (.inTags acc) (ts.map (fun t => kItem ++ t) ++ rest) =
      parseFMLines st (.inTags (acc ++ ts)) rest := by
  induction ts generalizing acc with
  | nil => simp
  | cons t ts' ih =>
    simp only [List.map_cons, List.cons_append]
    conv_lhs => rw [parseFMLines]
    simp only [handleLine, hts t (by simp)]
    rw [ih (acc ++ [t]) (fun x hx => hts x (by simp [hx]))]
    simp

theorem parseFMLines_depItems (st : FMState) (ts : List Str) (acc rest : List Str)
    (hts : ∀ t ∈ ts, classify (kItem ++ t) = .item t) :
    parseFMLines st (.inDeps acc) (ts.map (fun t => kItem ++ t) ++ rest) =
      parseFMLines st (.inDeps (acc ++ ts)) rest := by
  induction ts generalizing acc with
  | nil => simp
  | cons t ts' ih =>
    simp only [List.map_cons, List.cons_append]
    conv_lhs => rw [parseFMLines]
    simp only [handleLine, hts t (by simp)]
    rw [ih (acc ++ [t]) (fun x hx => hts x (by simp [hx]))]
    simp

theorem parseFMLines_subItems (st : FMState) (sts : List SubTask) (acc : List SubTask)
    (rest : List Str) :
    parseFMLines st (.inSub acc)
        ((sts.map (fun s => [kSubText ++ s.text, kDone ++ boolStr s.done])).flatten ++ rest) =
      parseFMLines st (.inSub (acc ++ sts)) rest := by
  induction sts generalizing acc with
  | nil => simp
  | cons s ss ih =>
    simp only [List.map_cons, List.flatten_cons, List.cons_append, List.append_assoc]
    conv_lhs => rw [parseFMLines]
    simp only [handleLine, classify_subtext_line]
    conv_lhs => rw [parseFMLines]
    simp only [handleLine, classify_done_line, parseBool_boolStr]
    simp only [List.nil_append]
    rw [show ({ text := s.text, done := s.done } : SubTask) = s from rfl]
    rw [ih (acc ++ [s])]
    simp

theorem SafeHead_append (A B : List Str) (hA : SafeHead A) (hB : SafeHead B) :
    SafeHead (A ++ B) := by
  cases A with
  | nil => simpa using hB
  | cons a as =>
    intro l rs h
    rw [List.cons_append] at h
    cases h
    exact hA a as rfl

theorem SafeHead_optLines {α : Type} (o : Option α) (f : α → List Str)
    (hf : ∀ a, SafeHead (f a)) : SafeHead (optLines o f) := by
  cases o with
  | none => intro l rs h; simp [optLines] at h
  | some a => simpa [optLines] using hf a

theorem summary_step (st : FMState) (v : Str) (rest : List Str) (hst : st.summary = none) :
    parseFMLines st .top ((kSummary ++ v) :: rest) =
      parseFMLines { st with summary := some v } .top rest := by
  conv_lhs => rw [parseFMLines]
  simp [handleLine, handleTop, classify_summary_line, hst]

theorem created_step (st : FMState) (dt : DateTime) (rest : List Str)
    (hst : st.created = none) (hval : dt.Valid) :
    parseFMLines st .top ((kCreated ++ renderTS dt) :: rest) =
      parseFMLines { st with created := some dt } .top rest := by
  conv_lhs => rw [parseFMLines]
  simp [handleLine, handleTop, classify_created_line, hst, parseTS_renderTS dt hval]

theorem tags_section (st : FMState) (o : Option (List Str)) (rest : List Str)
    (hst : st.tags = none)
    (hne : ∀ ts, o = some ts → ts ≠ [])
    (hitems : ∀ ts, o = some ts → ∀ t ∈ ts, classify (kItem ++ t) = .item t)
    (hrest : SafeHead rest) :
    parseFMLines st .top (optLines o (fun ts => kTags :: ts.map (fun t => kItem ++ t)) ++ rest) =
      parseFMLines { st with tags := o } .top rest := by
  cases o with
  | none => rw [optLines, List.nil_append, tags_none_eta st hst]
  | some ts =>
    rw [optLines, List.cons_append]
    conv_lhs => rw [parseFMLines]
    simp only [handleLine, handleTop, classify_tags_line, hst]
    rw [parseFMLines_tagItems st ts [] rest (hitems ts rfl), List.nil_append]
    rw [parseFMLines_flushTags st ts rest (fun l rs h => (hrest l rs h).1)]
    rw [flushTags, if_neg (hne ts rfl)]

theorem dependencies_section (st : FMState) (o : Option (List Str)) (rest : List Str)
    (hst : st.dependencies = none)
    (hne : ∀ ts, o = some ts → ts ≠ [])
    (hitems : ∀ ts, o = some ts → ∀ t ∈ ts, classify (kItem ++ t) = .item t)
    (hrest : SafeHead rest) :
    parseFMLines st .top
        (optLines o (fun ds => kDependencies :: ds.map (fun t => kItem ++ t)) ++ rest) =
      parseFMLines { st with dependencies := o } .top rest := by
  cases o with
  | none => rw [optLines, List.nil_append, dependencies_none_eta st hst]
  | some ts =>
    rw [optLines, List.cons_append]
    conv_lhs => rw [parseFMLines]
    simp only [handleLine, handleTop, classify_dependencies_line, hst]
    rw [parseFMLines_depItems st ts [] rest (hitems ts rfl), List.nil_append]
    rw [parseFMLines_flushDeps st ts rest (fun l rs h => (hrest l rs h).1)]
    rw [flushDeps, if_neg (hne ts rfl)]

theorem subtasks_section (st : FMState) (o : Option (List SubTask)) (rest : List Str)
    (hst : st.subtasks = none)
    (hne : ∀ sts, o = some sts → sts ≠ [])
    (hrest : SafeHead rest) :
    parseFMLines st .top
        (optLines o (fun sts => kSubtasks ::
          (sts.map (fun s => [kSubText ++ s.text, kDone ++ boolStr s.done])).flatten) ++ rest) =
      parseFMLines { st with subtasks := o } .top rest := by
  cases o with
  | none => rw [optLines, List.nil_append, subtasks_none_eta st hst]
  | some sts =>
    rw [optLines, List.cons_append]
    conv_lhs => rw [parseFMLines]
    simp only [handleLine, handleTop, classify_subtasks_line, hst]
    rw [parseFMLines_subItems st sts [] rest, List.nil_append]
    rw [parseFMLines_flushSub st sts rest (fun l rs h => (hrest l rs h).2)]
    rw [flushSub, if_neg (hne sts rfl)]

theorem project_section (st : FMState) (o : Option Str) (rest : List Str)
    (hst : st.project = none) :
    parseFMLines st .top (optLines o (fun p => [kProject ++ p]) ++ rest) =
      parseFMLines { st with project := o } .top rest := by
  cases o with
  | none => rw [optLines, List.nil_append, project_none_eta st hst]
  | some p =>
    rw [optLines, List.cons_append, List.nil_append]
    conv_lhs => rw [parseFMLines]
    simp [handleLine, handleTop, classify_project_line, hst]

theorem priority_section (st : FMState) (o : Option Str) (rest : List Str)
    (hst : st.priority = none) :
    parseFMLines st .top (optLines o (fun p => [kPriority ++ p]) ++ rest) =
      parseFMLines { st with priority := o } .top rest := by
  cases o with
  | none => rw [optLines, List.nil_append, priority_none_eta st hst]
  | some p =>
    rw [optLines, List.cons_append, List.nil_append]
    conv_lhs => rw [parseFMLines]
    simp [handleLine, handleTop, classify_priority_line, hst]

theorem delegatedto_section (st : FMState) (o : Option Str) (rest : List Str)
    (hst : st.delegatedto = none) :
    parseFMLines st .top (optLines o (fun p => [kDelegatedto ++ p]) ++ rest) =
      parseFMLines { st with delegatedto := o } .top rest := by
  cases o with
  | none => rw [optLines, List.nil_append, delegatedto_none_eta st hst]
  | some p =>
    rw [optLines, List.cons_append, List.nil_append]
    conv_lhs => rw [parseFMLines]
    simp [handleLine, handleTop, classify_delegatedto_line, hst]

theorem resolved_section (st : FMState) (o : Option DateTime) (rest : List Str)
    (hst : st.resolved = none) (hval : ∀ r, o = some r → r.Valid) :
    parseFMLines st .top (optLines o (fun r => [kResolved ++ renderTS r]) ++ rest) =
      parseFMLines { st with resolved := o } .top rest := by
  cases o with
  | none => rw [optLines, List.nil_append, resolved_none_eta st hst]
  | some r =>
    rw [optLines, List.cons_append, List.nil_append]
    conv_lhs => rw [parseFMLines]
    simp [handleLine, handleTop, classify_resolved_line, hst, parseTS_renderTS r (hval r rfl)]

theorem due_section (st : FMState) (o : Option DateTime) (rest : List Str)
    (hst : st.due = none) (hval : ∀ r, o = some r → r.Valid) :
    parseFMLines st .top (optLines o (fun r => [kDue ++ renderTS r]) ++ rest) =
      parseFMLines { st with due := o } .top rest := by
  cases o with
  | none => rw [optLines, List.nil_append, due_none_eta st hst]
  | some r =>
    rw [optLines, List.cons_append, List.nil_append]
    conv_lhs => rw [parseFMLines]
    simp [handleLine, handleTop, classify_due_line, hst, parseTS_renderTS r (hval r rfl)]

theorem parseFMLines_final (st : FMState) (s : Str) (c : DateTime)
    (hs : st.summary = some s) (hc : st.created = some c) :
    parseFMLines st .top [] =
      some ⟨s, st.tags, st.project, st.priority, st.delegatedto, st.subtasks,
        st.dependencies, c, st.resolved, st.due⟩ := by
  rw [parseFMLines]
  simp [finalizeFM, hs, hc]

theorem SafeHead_cons (l : Str) (ls : List Str)
    (h1 : ∀ v, classify l ≠ .item v) (h2 : ∀ v, classify l ≠ .subText v) :
    SafeHead (l :: ls) := by
  intro a rs hh
  cases hh
  exact ⟨h1, h2⟩

set_option maxHeartbeats 2000000 in
theorem parse_yamlLines (fm : TaskFrontmatter)
    (htags : ∀ ts, fm.tags = some ts → ts ≠ [] ∧ ∀ t ∈ ts, classify (kItem ++ t) = .item t)
    (hdeps : ∀ ds, fm.dependencies = some ds → ds ≠ [] ∧ ∀ t ∈ ds, classify (kItem ++ t) = .item t)
    (hsub : ∀ sts, fm.subtasks = some sts → sts ≠ [])
    (hcv : fm.created.Valid)
    (hrv : ∀ r, fm.resolved = some r → r.Valid)
    (hdv : ∀ r, fm.due = some r → r.Valid) :
    parseFMLines initFM .top (yamlLines fm) = some fm := by
  have SRes : SafeHead (optLines fm.resolved (fun r => [kResolved ++ renderTS r])) :=
    SafeHead_optLines _ _ (fun r => SafeHead_cons _ _
      (by simp [classify_resolved_line]) (by simp [classify_resolved_line]))
  have SDue : SafeHead (optLines fm.due (fun r => [kDue ++ renderTS r])) :=
    SafeHead_optLines _ _ (fun r => SafeHead_cons _ _
      (by simp [classify_due_line]) (by simp [classify_due_line]))
  have S8 : SafeHead ((kCreated ++ renderTS fm.created) ::
      (optLines fm.resolved (fun r => [kResolved ++ renderTS r]) ++
        optLines fm.due (fun r => [kDue ++ renderTS r]))) :=
    SafeHead_cons _ _ (by simp [classify_created_line]) (by simp [classify_created_line])
  have SDep : SafeHead (optLines fm.dependencies
      (fun ds => kDependencies :: ds.map (fun t => kItem ++ t))) :=
    SafeHead_optLines _ _ (fun ds => SafeHead_cons _ _
      (by simp [classify_dependencies_line]) (by simp [classify_dependencies_line]))
  have S7 := SafeHead_append _ _ SDep S8
  have SSub : SafeHead (optLines fm.subtasks (fun sts => kSubtasks ::
      (sts.map (fun s => [kSubText ++ s.text, kDone ++ boolStr s.done])).flatten)) :=
    SafeHead_optLines _ _ (fun sts => SafeHead_cons _ _
      (by simp [classify_subtasks_line]) (by simp [classify_subtasks_line]))
  have S6 := SafeHead_append _ _ SSub S7
  have SDel : SafeHead (optLines fm.delegatedto (fun p => [kDelegatedto ++ p])) :=
    SafeHead_optLines _ _ (fun p => SafeHead_cons _ _
      (by simp [classify_delegatedto_line]) (by simp [classify_delegatedto_line]))
  have S5 := SafeHead_append _ _ SDel S6
  have SPri : SafeHead (optLines fm.priority (fun p => [kPriority ++ p])) :=
    SafeHead_optLines _ _ (fun p => SafeHead_cons _ _
      (by simp [classify_priority_line]) (by simp [classify_priority_line]))
  have S4 := SafeHead_append _ _ SPri S5
  have SProj : SafeHead (optLines fm.project (fun p => [kProject ++ p])) :=
    SafeHead_optLines _ _ (fun p => SafeHead_cons _ _
      (by simp [classify_project_line]) (by simp [classify_project_line]))
  have S3 := SafeHead_append _ _ SProj S4
  rw [yamlLines]
  rw [summary_step _ _ _ rfl]
  dsimp only [initFM]
  rw [tags_section _ _ _ rfl (fun ts h => (htags ts h).1) (fun ts h => (htags ts h).2) S3]
  dsimp only
  rw [project_section _ _ _ rfl]
  dsimp only
  rw [priority_section _ _ _ rfl]
  dsimp only
  rw [delegatedto_section _ _ _ rfl]
  dsimp only
  rw [subtasks_section _ _ _ rfl hsub S7]
  dsimp only
  rw [dependencies_section _ _ _ rfl (fun ds h => (hdeps ds h).1) (fun ds h => (hdeps ds h).2) S8]
  dsimp only
  rw [created_step _ _ _ rfl hcv]
  dsimp only
  rw [resolved_section _ _ _ rfl hrv]
  dsimp only
  rw [show (optLines fm.due fun r => [kDue ++ renderTS r]) =
        (optLines fm.due fun r => [kDue ++ renderTS r]) ++ [] from (List.append_nil _).symm]
  rw [due_section _ _ _ rfl hdv]
  dsimp only
  rw [parseFMLines_final _ fm.summary fm.created rfl rfl]

theorem digToChar_ne (d : Nat) : digToChar d ≠ '\n' ∧ digToChar d ≠ '\r' := by
  have h : d % 10 < 10 := Nat.mod_lt _ (by omega)
  unfold digToChar
  interval_cases h10 : d % 10 <;> exact ⟨by decide, by decide⟩

theorem nl_ne_dig (d : Nat) : '\n' ≠ digToChar d := fun h => (digToChar_ne d).1 h.symm

theorem cr_ne_dig (d : Nat) : '\r' ≠ digToChar d := fun h => (digToChar_ne d).2 h.symm

theorem renderTS_clean (d : DateTime) : cleanStr (renderTS d) := by
  constructor
  · simp [renderTS, pad4, pad2, nl_ne_dig,
      (by decide : ('\n' : Char) ≠ '-'), (by decide : ('\n' : Char) ≠ 'T'),
      (by decide : ('\n' : Char) ≠ ':'), (by decide : ('\n' : Char) ≠ 'Z')]
  · simp [renderTS, pad4, pad2, cr_ne_dig,
      (by decide : ('\r' : Char) ≠ '-'), (by decide : ('\r' : Char) ≠ 'T'),
      (by decide : ('\r' : Char) ≠ ':'), (by decide : ('\r' : Char) ≠ 'Z')]

theorem boolStr_clean (b : Bool) : cleanStr (boolStr b) := by
  cases b <;> exact ⟨by decide, by decide⟩

theorem clean_line (p v : Str) (hp : cleanStr p) (hv : cleanStr v) :
    '\n' ∉ p ++ v ∧ (p ++ v).getLast? ≠ some '\r' := by
  constructor
  · intro h
    rcases List.mem_append.mp h with h | h
    · exact hp.1 h
    · exact hv.1 h
  · intro h
    rcases List.mem_append.mp (mem_of_getLast_eq _ _ h) with h | h
    · exact hp.2 h
    · exact hv.2 h

theorem clean_line_only (p : Str) (hp : cleanStr p) :
    '\n' ∉ p ∧ p.getLast? ≠ some '\r' :=
  ⟨hp.1, fun h => hp.2 (mem_of_getLast_eq _ _ h)⟩

theorem ne_delim_of_len (l : Str) (h : l.length ≠ 3) : l ≠ DELIM :=
  fun hh => h (by rw [hh]; decide)

theorem ne_delim_long (p v : Str) (hp : 4 ≤ p.length) : p ++ v ≠ DELIM := by
  apply ne_delim_of_len
  rw [List.length_append]
  omega

theorem item_ne_delim (t : Str) : kItem ++ t ≠ DELIM := by
  intro h
  have h2 : kItem = DELIM.take 2 := by
    rw [← h, show (2 : Nat) = kItem.length from by decide, take_len_append]
  exact absurd h2 (by decide)

theorem mem_optLines {α : Type} (l : Str) (o : Option α) (f : α → List Str) :
    l ∈ optLines o f ↔ ∃ a, o = some a ∧ l ∈ f a := by
  cases o <;> simp [optLines]

theorem yamlLines_clean (fm : TaskFrontmatter)
    (hs : cleanStr fm.summary)
    (ht : ∀ ts, fm.tags = some ts → ∀ t ∈ ts, cleanStr t)
    (hp : ∀ p, fm.project = some p → cleanStr p)
    (hpr : ∀ p, fm.priority = some p → cleanStr p)
    (hd : ∀ p, fm.delegatedto = some p → cleanStr p)
    (hsub : ∀ sts, fm.subtasks = some sts → ∀ s ∈ sts, cleanStr s.text)
    (hdp : ∀ ds, fm.dependencies = some ds → ∀ t ∈ ds, cleanStr t) :
    ∀ l ∈ yamlLines fm, ('\n' ∉ l ∧ l.getLast? ≠ some '\r') ∧ l ≠ DELIM := by
  intro l hl
  rw [yamlLines] at hl
  rcases List.mem_cons.mp hl with rfl | hl
  · exact ⟨clean_line _ _ ⟨by decide, by decide⟩ hs, ne_delim_long _ _ (by decide)⟩
  rcases List.mem_append.mp hl with hl | hl
  · obtain ⟨ts, hts, hl⟩ := (mem_optLines _ _ _).mp hl
    rcases List.mem_cons.mp hl with rfl | hl
    · exact ⟨clean_line_only _ ⟨by decide, by decide⟩, by decide⟩
    · obtain ⟨t, htm, rfl⟩ := List.mem_map.mp hl
      exact ⟨clean_line _ _ ⟨by decide, by decide⟩ (ht ts hts t htm), item_ne_delim t⟩
  rcases List.mem_append.mp hl with hl | hl
  · obtain ⟨p, hps, hl⟩ := (mem_optLines _ _ _).mp hl
    rcases List.mem_cons.mp hl with rfl | hl
    · exact ⟨clean_line _ _ ⟨by decide, by decide⟩ (hp p hps), ne_delim_long _ _ (by decide)⟩
    · simp at hl
  rcases List.mem_append.mp hl with hl | hl
  · obtain ⟨p, hps, hl⟩ := (mem_optLines _ _ _).mp hl
    rcases List.mem_cons.mp hl with rfl | hl
    · exact ⟨clean_line _ _ ⟨by decide, by decide⟩ (hpr p hps), ne_delim_long _ _ (by decide)⟩
    · simp at hl
  rcases List.mem_append.mp hl with hl | hl
  · obtain ⟨p, hps, hl⟩ := (mem_optLines _ _ _).mp hl
    rcases List.mem_cons.mp hl with rfl | hl
    · exact ⟨clean_line _ _ ⟨by decide, by decide⟩ (hd p hps), ne_delim_long _ _ (by decide)⟩
    · simp at hl
  rcases List.mem_append.mp hl with hl | hl
  · obtain ⟨sts, hss, hl⟩ := (mem_optLines _ _ _).mp hl
    rcases List.mem_cons.mp hl with rfl | hl
    · exact ⟨clean_line_only _ ⟨by decide, by decide⟩, by decide⟩
    · obtain ⟨M, hM, hlM⟩ := List.mem_flatten.mp hl
      obtain ⟨s, hsm, rfl⟩ := List.mem_map.mp hM
      rcases List.mem_cons.mp hlM with rfl | hlM
      · exact ⟨clean_line _ _ ⟨by decide, by decide⟩ (hsub sts hss s hsm),
          ne_delim_long _ _ (by decide)⟩
      rcases List.mem_cons.mp hlM with rfl | hlM
      · exact ⟨clean_line _ _ ⟨by decide, by decide⟩ (boolStr_clean s.done),
          ne_delim_long _ _ (by decide)⟩
      · simp at hlM
  rcases List.mem_append.mp hl with hl | hl
  · obtain ⟨ds, hds, hl⟩ := (mem_optLines _ _ _).mp hl
    rcases List.mem_cons.mp hl with rfl | hl
    · exact ⟨clean_line_only _ ⟨by decide, by decide⟩, by decide⟩
    · obtain ⟨t, htm, rfl⟩ := List.mem_map.mp hl
      exact ⟨clean_line _ _ ⟨by decide, by decide⟩ (hdp ds hds t htm), item_ne_delim t⟩
  rcases List.mem_cons.mp hl with rfl | hl
  · exact ⟨clean_line _ _ ⟨by decide, by decide⟩ (renderTS_clean fm.created),
      ne_delim_long _ _ (by decide)⟩
  rcases List.mem_append.mp hl with hl | hl
  · obtain ⟨r, hrs, hl⟩ := (mem_optLines _ _ _).mp hl
    rcases List.mem_cons.mp hl with rfl | hl
    · exact ⟨clean_line _ _ ⟨by decide, by decide⟩ (renderTS_clean r), ne_delim_long _ _ (by decide)⟩
    · simp at hl
  · obtain ⟨r, hrs, hl⟩ := (mem_optLines _ _ _).mp hl
    rcases List.mem_cons.mp hl with rfl | hl
    · exact ⟨clean_line _ _ ⟨by decide, by decide⟩ (renderTS_clean r), ne_delim_long _ _ (by decide)⟩
    · simp at hl

theorem splitNL_joinNL (ls : List Str) (hne : ls ≠ []) (h : ∀ l ∈ ls, '\n' ∉ l) :
    splitNL (joinNL ls) = ls := by
  induction ls with
  | nil => exact absurd rfl hne
  | cons l rest ih =>
    cases rest with
    | nil => exact splitNL_no_nl l (h l (by simp))
    | cons r rs =>
      rw [show joinNL (l :: r :: rs) = l ++ '\n' :: joinNL (r :: rs) from rfl]
      rw [splitNL_append_nl l _ (h l (by simp))]
      rw [ih (by simp) (fun x hx => h x (by simp [hx]))]

theorem drop_len_succ_append {α : Type} (A : List α) (x : α) (B : List α) :
    (A ++ x :: B).drop (A.length + 1) = B := by
  have : A ++ x :: B = (A ++ [x]) ++ B := by simp
  rw [this, show A.length + 1 = (A ++ [x]).length from by simp, drop_len_append]

theorem joinNL_cons_of_ne (l : Str) (ls : List Str) (h : ls ≠ []) :
    joinNL (l :: ls) = l ++ '\n' :: joinNL ls := by
  cases ls with
  | nil => exact absurd rfl h
  | cons r rs => rfl

theorem task_from_markdown_structured (hs bs : List Str) (u s : Str) (i : Int)
    (hclean : ∀ l ∈ hs ++ bs, '\n' ∉ l ∧ l.getLast? ≠ some '\r')
    (hnd : DELIM ∉ hs) (hne : hs ≠ []) :
    task_from_markdown (unlines (DELIM :: (hs ++ DELIM :: bs))) u s i =
      match parseFMLines initFM .top hs with
      | none => .error .yaml
      | some fm => .ok (buildTask fm u s i
          (if bs = [] then [] else trimLeadingNL (joinNL bs))) := by
  have hcleanAll : ∀ l ∈ DELIM :: (hs ++ DELIM :: bs), '\n' ∉ l ∧ l.getLast? ≠ some '\r' := by
    intro l hl
    rcases List.mem_cons.mp hl with rfl | hl
    · exact ⟨by decide, by decide⟩
    rcases List.mem_append.mp hl with hl | hl
    · exact hclean l (List.mem_append.mpr (Or.inl hl))
    rcases List.mem_cons.mp hl with rfl | hl
    · exact ⟨by decide, by decide⟩
    · exact hclean l (List.mem_append.mpr (Or.inr hl))
  rw [task_from_markdown]
  rw [rustLines_unlines _ hcleanAll]
  simp only [ne_eq, not_true_eq_false, if_false, ite_false, reduceIte]
  rw [findDelim_append hs bs hnd]
  dsimp only
  rw [take_len_append, drop_len_succ_append]
  have hlen : (hs ++ DELIM :: bs).length = hs.length + 1 + bs.length := by
    simp
    omega
  rw [parseFrontmatter, splitNL_joinNL hs hne (fun l hl => (hclean l (by simp [hl])).1)]
  by_cases hbs : bs = []
  · subst hbs
    rw [if_neg (by simp [hlen])]
    simp
  · rw [if_pos (by simp [hlen]; exact List.length_pos.mpr hbs)]
    rw [if_neg hbs]

theorem task_to_markdown_structured (t : RsTask) (hnl : t.notes.getLast? ≠ some '\n') :
    task_to_markdown t = .ok (unlines (DELIM ::
      (yamlLines (taskFM t) ++ DELIM ::
        (if t.notes = [] then [] else [] :: splitNL t.notes)))) := by
  rw [task_to_markdown]
  rw [show unlines (DELIM :: (yamlLines (taskFM t) ++ DELIM ::
        (if t.notes = [] then [] else [] :: splitNL t.notes))) =
      DELIM ++ '\n' :: (unlines (yamlLines (taskFM t)) ++ (DELIM ++ '\n' ::
        unlines (if t.notes = [] then [] else [] :: splitNL t.notes))) from by
    rw [show unlines (DELIM :: (yamlLines (taskFM t) ++ DELIM :: _)) =
        DELIM ++ '\n' :: unlines (yamlLines (taskFM t) ++ DELIM :: _) from rfl]
    rw [unlines_append]
    rw [show unlines (DELIM :: _) = DELIM ++ '\n' :: unlines _ from rfl]]
  by_cases hn : t.notes = []
  · simp only [hn, List.isEmpty_nil, if_true, ite_true, reduceIte]
    rw [show unlines ([] : List Str) = [] from rfl]
    show Except.ok (("---\n").data ++ serde_yaml_to_string (taskFM t) ++ ("---\n").data) = _
    rw [serde_yaml_to_string]
    simp [DELIM]
  · rw [if_neg hn]
    have h1 : ¬(t.notes.isEmpty = true) := by simp [List.isEmpty_iff, hn]
    rw [if_neg h1, if_neg hnl]
    show Except.ok (("---\n").data ++ serde_yaml_to_string (taskFM t) ++ ("---\n").data ++
      '\n' :: (t.notes ++ ['\n'])) = _
    rw [show unlines ([] :: splitNL t.notes) = '\n' :: unlines (splitNL t.notes) from rfl]
    rw [unlines_eq_joinNL _ (splitNL_ne_nil t.notes), joinNL_splitNL]
    rw [serde_yaml_to_string]
    simp [DELIM]

theorem startsWith_text_false (v : Str) (h : ':' ∉ v) :
    startsWith (("text: ").data) v = false := by
  cases hsw : startsWith (("text: ").data) v
  · rfl
  · exfalso
    apply h
    rw [startsWith_drop _ _ hsw]
    exact List.mem_append.mpr (Or.inl (by decide))

theorem ifEmpty_some {α : Type} (x y : List α)
    (h : (if x.isEmpty then none else some x) = some y) : y = x ∧ x ≠ [] := by
  by_cases he : x.isEmpty = true
  · rw [if_pos he] at h
    cases h
  · rw [if_neg he] at h
    cases h
    exact ⟨rfl, by simpa [List.isEmpty_iff] using he⟩

theorem emptyOpt_getD {α : Type} (x : List α) :
    (if x.isEmpty then none else some x).getD [] = x := by
  by_cases he : x.isEmpty = true
  · rw [if_pos he]
    simp [List.isEmpty_iff.mp he]
  · rw [if_neg he]
    rfl

theorem emptyOpt_getD2 {α : Type} (x : List α) {inst : Decidable (x = [])} :
    (@ite _ (x = []) inst none (some x)).getD [] = x := by
  cases x with
  | nil => rw [if_pos rfl]; rfl
  | cons a as => rw [if_neg (by simp)]; rfl

theorem roundtrip_core (t : RsTask) (u s : Str) (i : Int) (h : TaskWF t) :
    task_from_markdown (unlines (DELIM :: (yamlLines (taskFM t) ++ DELIM ::
        (if t.notes = [] then [] else [] :: splitNL t.notes)))) u s i =
      .ok (buildTask (taskFM t) u s i t.notes) := by
  obtain ⟨hsum, htag, hproj, hpri, hdel, hsubt, hdep, hcv, hrv, hdv, hh, hlast, hcr⟩ := h
  have hYclean := yamlLines_clean (taskFM t) hsum
    (fun ts hts => by
      obtain ⟨rfl, _⟩ := ifEmpty_some _ _ hts
      exact fun x hx => (htag x hx).1)
    (fun p hps => by
      obtain ⟨rfl, _⟩ := ifEmpty_some _ _ hps
      exact hproj)
    (fun p hps => by
      obtain ⟨rfl, _⟩ := ifEmpty_some _ _ hps
      exact hpri)
    (fun p hps => by
      obtain ⟨rfl, _⟩ := ifEmpty_some _ _ hps
      exact hdel)
    (fun sts hss => by
      obtain ⟨rfl, _⟩ := ifEmpty_some _ _ hss
      exact fun x hx => hsubt x hx)
    (fun ds hds => by
      obtain ⟨rfl, _⟩ := ifEmpty_some _ _ hds
      exact fun x hx => (hdep x hx).1)
  have hclean2 : ∀ l ∈ yamlLines (taskFM t) ++
      (if t.notes = [] then [] else [] :: splitNL t.notes),
      '\n' ∉ l ∧ l.getLast? ≠ some '\r' := by
    intro l hl
    rcases List.mem_append.mp hl with hl | hl
    · exact (hYclean l hl).1
    · by_cases hn : t.notes = []
      · rw [if_pos hn] at hl
        simp at hl
      · rw [if_neg hn] at hl
        rcases List.mem_cons.mp hl with rfl | hl
        · exact ⟨by simp, by simp⟩
        · refine ⟨mem_splitNL_no_nl _ l hl, fun hend => hcr ?_⟩
          exact mem_splitNL_mem _ l hl _ (mem_of_getLast_eq _ _ hend)
  have hnd : DELIM ∉ yamlLines (taskFM t) := fun hmem =>
    (hYclean DELIM hmem).2 rfl
  have hdec := task_from_markdown_structured (yamlLines (taskFM t))
    (if t.notes = [] then [] else [] :: splitNL t.notes) u s i hclean2 hnd
    (by rw [yamlLines]; simp)
  have hparse := parse_yamlLines (taskFM t)
    (fun ts hts => by
      obtain ⟨rfl, hne⟩ := ifEmpty_some _ _ hts
      exact ⟨hne, fun x hx => classify_item_line x (startsWith_text_false x (htag x hx).2)⟩)
    (fun ds hds => by
      obtain ⟨rfl, hne⟩ := ifEmpty_some _ _ hds
      exact ⟨hne, fun x hx => classify_item_line x (startsWith_text_false x (hdep x hx).2)⟩)
    (fun sts hss => by
      obtain ⟨rfl, hne⟩ := ifEmpty_some _ _ hss
      exact hne)
    hcv hrv hdv
  rw [hparse] at hdec
  have hnotes : (if (if t.notes = [] then ([] : List Str) else [] :: splitNL t.notes) = []
      then ([] : Str)
      else trimLeadingNL (joinNL (if t.notes = [] then [] else [] :: splitNL t.notes))) =
      t.notes := by
    by_cases hn : t.notes = []
    · simp [hn]
    · simp only [if_neg hn]
      rw [if_neg (show ¬(([] :: splitNL t.notes : List Str) = []) by simp)]
      rw [joinNL_cons_of_ne _ _ (splitNL_ne_nil _), List.nil_append, joinNL_splitNL]
      rw [trimLeadingNL_cons_nl, trimLeadingNL_of_head _ hh]
  rw [hnotes] at hdec
  exact hdec

theorem classify_eq_tagsKey (l : Str) (h : classify l = .tagsKey) :
    l = kTags := by
  delta classify at h
  by_cases ht : l = kTags
  · exact ht
  exfalso
  by_cases h0 : l = []
  · rw [if_pos h0] at h
    cases h
  rw [if_neg h0] at h
  by_cases h1 : startsWith kSummary l = true
  · rw [if_pos h1] at h
    cases h
  rw [if_neg h1] at h
  rw [if_neg ht] at h
  by_cases h3 : startsWith kProject l = true
  · rw [if_pos h3] at h
    cases h
  rw [if_neg h3] at h
  by_cases h4 : startsWith kPriority l = true
  · rw [if_pos h4] at h
    cases h
  rw [if_neg h4] at h
  by_cases h5 : startsWith kDelegatedto l = true
  · rw [if_pos h5] at h
    cases h
  rw [if_neg h5] at h
  by_cases h6 : l = kSubtasks
  · rw [if_pos h6] at h
    cases h
  rw [if_neg h6] at h
  by_cases h7 : l = kDependencies
  · rw [if_pos h7] at h
    cases h
  rw [if_neg h7] at h
  by_cases h8 : startsWith kCreated l = true
  · rw [if_pos h8] at h
    cases h
  rw [if_neg h8] at h
  by_cases h9 : startsWith kResolved l = true
  · rw [if_pos h9] at h
    cases h
  rw [if_neg h9] at h
  by_cases h10 : startsWith kDue l = true
  · rw [if_pos h10] at h
    cases h
  rw [if_neg h10] at h
  by_cases h11 : startsWith kSubText l = true
  · rw [if_pos h11] at h
    cases h
  rw [if_neg h11] at h
  by_cases h12 : startsWith kDone l = true
  · rw [if_pos h12] at h
    cases h
  rw [if_neg h12] at h
  by_cases h13 : startsWith kItem l = true
  · rw [if_pos h13] at h
    cases h
  rw [if_neg h13] at h
  cases h

theorem classify_eq_subtasksKey (l : Str) (h : classify l = .subtasksKey) :
    l = kSubtasks := by
  delta classify at h
  by_cases ht : l = kSubtasks
  · exact ht
  exfalso
  by_cases h0 : l = []
  · rw [if_pos h0] at h
    cases h
  rw [if_neg h0] at h
  by_cases h1 : startsWith kSummary l = true
  · rw [if_pos h1] at h
    cases h
  rw [if_neg h1] at h
  by_cases h2 : l = kTags
  · rw [if_pos h2] at h
    cases h
  rw [if_neg h2] at h
  by_cases h3 : startsWith kProject l = true
  · rw [if_pos h3] at h
    cases h
  rw [if_neg h3] at h
  by_cases h4 : startsWith kPriority l = true
  · rw [if_pos h4] at h
    cases h
  rw [if_neg h4] at h
  by_cases h5 : startsWith kDelegatedto l = true
  · rw [if_pos h5] at h
    cases h
  rw [if_neg h5] at h
  rw [if_neg ht] at h
  by_cases h7 : l = kDependencies
  · rw [if_pos h7] at h
    cases h
  rw [if_neg h7] at h
  by_cases h8 : startsWith kCreated l = true
  · rw [if_pos h8] at h
    cases h
  rw [if_neg h8] at h
  by_cases h9 : startsWith kResolved l = true
  · rw [if_pos h9] at h
    cases h
  rw [if_neg h9] at h
  by_cases h10 : startsWith kDue l = true
  · rw [if_pos h10] at h
    cases h
  rw [if_neg h10] at h
  by_cases h11 : startsWith kSubText l = true
  · rw [if_pos h11] at h
    cases h
  rw [if_neg h11] at h
  by_cases h12 : startsWith kDone l = true
  · rw [if_pos h12] at h
    cases h
  rw [if_neg h12] at h
  by_cases h13 : startsWith kItem l = true
  · rw [if_pos h13] at h
    cases h
  rw [if_neg h13] at h
  cases h

theorem classify_eq_dependenciesKey (l : Str) (h : classify l = .dependenciesKey) :
    l = kDependencies := by
  delta classify at h
  by_cases ht : l = kDependencies
  · exact ht
  exfalso
  by_cases h0 : l = []
  · rw [if_pos h0] at h
    cases h
  rw [if_neg h0] at h
  by_cases h1 : startsWith kSummary l = true
  · rw [if_pos h1] at h
    cases h
  rw [if_neg h1] at h
  by_cases h2 : l = kTags
  · rw [if_pos h2] at h
    cases h
  rw [if_neg h2] at h
  by_cases h3 : startsWith kProject l = true
  · rw [if_pos h3] at h
    cases h
  rw [if_neg h3] at h
  by_cases h4 : startsWith kPriority l = true
  · rw [if_pos h4] at h
    cases h
  rw [if_neg h4] at h
  by_cases h5 : startsWith kDelegatedto l = true
  · rw [if_pos h5] at h
    cases h
  rw [if_neg h5] at h
  by_cases h6 : l = kSubtasks
  · rw [if_pos h6] at h
    cases h
  rw [if_neg h6] at h
  rw [if_neg ht] at h
  by_cases h8 : startsWith kCreated l = true
  · rw [if_pos h8] at h
    cases h
  rw [if_neg h8] at h
  by_cases h9 : startsWith kResolved l = true
  · rw [if_pos h9] at h
    cases h
  rw [if_neg h9] at h
  by_cases h10 : startsWith kDue l = true
  · rw [if_pos h10] at h
    cases h
  rw [if_neg h10] at h
  by_cases h11 : startsWith kSubText l = true
  · rw [if_pos h11] at h
    cases h
  rw [if_neg h11] at h
  by_cases h12 : startsWith kDone l = true
  · rw [if_pos h12] at h
    cases h
  rw [if_neg h12] at h
  by_cases h13 : startsWith kItem l = true
  · rw [if_pos h13] at h
    cases h
  rw [if_neg h13] at h
  cases h

theorem classify_eq_project (l : Str) (v : Str) (h : classify l = .project v) :
    startsWith kProject l = true := by
  delta classify at h
  by_cases ht : startsWith kProject l = true
  · exact ht
  exfalso
  by_cases h0 : l = []
  · rw [if_pos h0] at h
    cases h
  rw [if_neg h0] at h
  by_cases h1 : startsWith kSummary l = true
  · rw [if_pos h1] at h
    cases h
  rw [if_neg h1] at h
  by_cases h2 : l = kTags
  · rw [if_pos h2] at h
    cases h
  rw [if_neg h2] at h
  rw [if_neg ht] at h
  by_cases h4 : startsWith kPriority l = true
  · rw [if_pos h4] at h
    cases h
  rw [if_neg h4] at h
  by_cases h5 : startsWith kDelegatedto l = true
  · rw [if_pos h5] at h
    cases h
  rw [if_neg h5] at h
  by_cases h6 : l = kSubtasks
  · rw [if_pos h6] at h
    cases h
  rw [if_neg h6] at h
  by_cases h7 : l = kDependencies
  · rw [if_pos h7] at h
    cases h
  rw [if_neg h7] at h
  by_cases h8 : startsWith kCreated l = true
  · rw [if_pos h8] at h
    cases h
  rw [if_neg h8] at h
  by_cases h9 : startsWith kResolved l = true
  · rw [if_pos h9] at h
    cases h
  rw [if_neg h9] at h
  by_cases h10 : startsWith kDue l = true
  · rw [if_pos h10] at h
    cases h
  rw [if_neg h10] at h
  by_cases h11 : startsWith kSubText l = true
  · rw [if_pos h11] at h
    cases h
  rw [if_neg h11] at h
  by_cases h12 : startsWith kDone l = true
  · rw [if_pos h12] at h
    cases h
  rw [if_neg h12] at h
  by_cases h13 : startsWith kItem l = true
  · rw [if_pos h13] at h
    cases h
  rw [if_neg h13] at h
  cases h

theorem classify_eq_priority (l : Str) (v : Str) (h : classify l = .priority v) :
    startsWith kPriority l = true := by
  delta classify at h
  by_cases ht : startsWith kPriority l = true
  · exact ht
  exfalso
  by_cases h0 : l = []
  · rw [if_pos h0] at h
    cases h
  rw [if_neg h0] at h
  by_cases h1 : startsWith kSummary l = true
  · rw [if_pos h1] at h
    cases h
  rw [if_neg h1] at h
  by_cases h2 : l = kTags
  · rw [if_pos h2] at h
    cases h
  rw [if_neg h2] at h
  by_cases h3 : startsWith kProject l = true
  · rw [if_pos h3] at h
    cases h
  rw [if_neg h3] at h
  rw [if_neg ht] at h
  by_cases h5 : startsWith kDelegatedto l = true
  · rw [if_pos h5] at h
    cases h
  rw [if_neg h5] at h
  by_cases h6 : l = kSubtasks
  · rw [if_pos h6] at h
    cases h
  rw [if_neg h6] at h
  by_cases h7 : l = kDependencies
  · rw [if_pos h7] at h
    cases h
  rw [if_neg h7] at h
  by_cases h8 : startsWith kCreated l = true
  · rw [if_pos h8] at h
    cases h
  rw [if_neg h8] at h
  by_cases h9 : startsWith kResolved l = true
  · rw [if_pos h9] at h
    cases h
  rw [if_neg h9] at h
  by_cases h10 : startsWith kDue l = true
  · rw [if_pos h10] at h
    cases h
  rw [if_neg h10] at h
  by_cases h11 : startsWith kSubText l = true
  · rw [if_pos h11] at h
    cases h
  rw [if_neg h11] at h
  by_cases h12 : startsWith kDone l = true
  · rw [if_pos h12] at h
    cases h
  rw [if_neg h12] at h
  by_cases h13 : startsWith kItem l = true
  · rw [if_pos h13] at h
    cases h
  rw [if_neg h13] at h
  cases h

theorem classify_eq_delegatedto (l : Str) (v : Str) (h : classify l = .delegatedto v) :
    startsWith kDelegatedto l = true := by
  delta classify at h
  by_cases ht : startsWith kDelegatedto l = true
  · exact ht
  exfalso
  by_cases h0 : l = []
  · rw [if_pos h0] at h
    cases h
  rw [if_neg h0] at h
  by_cases h1 : startsWith kSummary l = true
  · rw [if_pos h1] at h
    cases h
  rw [if_neg h1] at h
  by_cases h2 : l = kTags
  · rw [if_pos h2] at h
    cases h
  rw [if_neg h2] at h
  by_cases h3 : startsWith kProject l = true
  · rw [if_pos h3] at h
    cases h
  rw [if_neg h3] at h
  by_cases h4 : startsWith kPriority l = true
  · rw [if_pos h4] at h
    cases h
  rw [if_neg h4] at h
  rw [if_neg ht] at h
  by_cases h6 : l = kSubtasks
  · rw [if_pos h6] at h
    cases h
  rw [if_neg h6] at h
  by_cases h7 : l = kDependencies
  · rw [if_pos h7] at h
    cases h
  rw [if_neg h7] at h
  by_cases h8 : startsWith kCreated l = true
  · rw [if_pos h8] at h
    cases h
  rw [if_neg h8] at h
  by_cases h9 : startsWith kResolved l = true
  · rw [if_pos h9] at h
    cases h
  rw [if_neg h9] at h
  by_cases h10 : startsWith kDue l = true
  · rw [if_pos h10] at h
    cases h
  rw [if_neg h10] at h
  by_cases h11 : startsWith kSubText l = true
  · rw [if_pos h11] at h
    cases h
  rw [if_neg h11] at h
  by_cases h12 : startsWith kDone l = true
  · rw [if_pos h12] at h
    cases h
  rw [if_neg h12] at h
  by_cases h13 : startsWith kItem l = true
  · rw [if_pos h13] at h
    cases h
  rw [if_neg h13] at h
  cases h

theorem classify_eq_resolved (l : Str) (v : Str) (h : classify l = .resolved v) :
    startsWith kResolved l = true := by
  delta classify at h
  by_cases ht : startsWith kResolved l = true
  · exact ht
  exfalso
  by_cases h0 : l = []
  · rw [if_pos h0] at h
    cases h
  rw [if_neg h0] at h
  by_cases h1 : startsWith kSummary l = true
  · rw [if_pos h1] at h
    cases h
  rw [if_neg h1] at h
  by_cases h2 : l = kTags
  · rw [if_pos h2] at h
    cases h
  rw [if_neg h2] at h
  by_cases h3 : startsWith kProject l = true
  · rw [if_pos h3] at h
    cases h
  rw [if_neg h3] at h
  by_cases h4 : startsWith kPriority l = true
  · rw [if_pos h4] at h
    cases h
  rw [if_neg h4] at h
  by_cases h5 : startsWith kDelegatedto l = true
  · rw [if_pos h5] at h
    cases h
  rw [if_neg h5] at h
  by_cases h6 : l = kSubtasks
  · rw [if_pos h6] at h
    cases h
  rw [if_neg h6] at h
  by_cases h7 : l = kDependencies
  · rw [if_pos h7] at h
    cases h
  rw [if_neg h7] at h
  by_cases h8 : startsWith kCreated l = true
  · rw [if_pos h8] at h
    cases h
  rw [if_neg h8] at h
  rw [if_neg ht] at h
  by_cases h10 : startsWith kDue l = true
  · rw [if_pos h10] at h
    cases h
  rw [if_neg h10] at h
  by_cases h11 : startsWith kSubText l = true
  · rw [if_pos h11] at h
    cases h
  rw [if_neg h11] at h
  by_cases h12 : startsWith kDone l = true
  · rw [if_pos h12] at h
    cases h
  rw [if_neg h12] at h
  by_cases h13 : startsWith kItem l = true
  · rw [if_pos h13] at h
    cases h
  rw [if_neg h13] at h
  cases h

theorem classify_eq_due (l : Str) (v : Str) (h : classify l = .due v) :
    startsWith kDue l = true := by
  delta classify at h
  by_cases ht : startsWith kDue l = true
  · exact ht
  exfalso
  by_cases h0 : l = []
  · rw [if_pos h0] at h
    cases h
  rw [if_neg h0] at h
  by_cases h1 : startsWith kSummary l = true
  · rw [if_pos h1] at h
    cases h
  rw [if_neg h1] at h
  by_cases h2 : l = kTags
  · rw [if_pos h2] at h
    cases h
  rw [if_neg h2] at h
  by_cases h3 : startsWith kProject l = true
  · rw [if_pos h3] at h
    cases h
  rw [if_neg h3] at h
  by_cases h4 : startsWith kPriority l = true
  · rw [if_pos h4] at h
    cases h
  rw [if_neg h4] at h
  by_cases h5 : startsWith kDelegatedto l = true
  · rw [if_pos h5] at h
    cases h
  rw [if_neg h5] at h
  by_cases h6 : l = kSubtasks
  · rw [if_pos h6] at h
    cases h
  rw [if_neg h6] at h
  by_cases h7 : l = kDependencies
  · rw [if_pos h7] at h
    cases h
  rw [if_neg h7] at h
  by_cases h8 : startsWith kCreated l = true
  · rw [if_pos h8] at h
    cases h
  rw [if_neg h8] at h
  by_cases h9 : startsWith kResolved l = true
  · rw [if_pos h9] at h
    cases h
  rw [if_neg h9] at h
  rw [if_neg ht] at h
  by_cases h11 : startsWith kSubText l = true
  · rw [if_pos h11] at h
    cases h
  rw [if_neg h11] at h
  by_cases h12 : startsWith kDone l = true
  · rw [if_pos h12] at h
    cases h
  rw [if_neg h12] at h
  by_cases h13 : startsWith kItem l = true
  · rw [if_pos h13] at h
    cases h
  rw [if_neg h13] at h
  cases h

/-- Keys that are absent from every line of a header cannot appear in the
parsed record: the corresponding fields keep their incoming values. -/
theorem parseFMLines_preserve (ls : List Str) :
    ∀ st fm, parseFMLines st .top ls = some fm →
    (∀ l ∈ ls, l ≠ kTags ∧ l ≠ kSubtasks ∧ l ≠ kDependencies ∧
      startsWith kProject l = false ∧ startsWith kPriority l = false ∧
      startsWith kDelegatedto l = false ∧ startsWith kResolved l = false ∧
      startsWith kDue l = false) →
    fm.tags = st.tags ∧ fm.project = st.project ∧ fm.priority = st.priority ∧
      fm.delegatedto = st.delegatedto ∧ fm.subtasks = st.subtasks ∧
      fm.dependencies = st.dependencies ∧ fm.resolved = st.resolved ∧
      fm.due = st.due := by
  induction ls with
  | nil =>
    intro st fm hok hk
    rw [parseFMLines] at hok
    cases hsm : st.summary <;> cases hcr : st.created <;>
      simp [finalizeFM, hsm, hcr] at hok
    rw [← hok]
    exact ⟨rfl, rfl, rfl, rfl, rfl, rfl, rfl, rfl⟩
  | cons l rest ih =>
    intro st fm hok hk
    have hkl := hk l (by simp)
    rw [parseFMLines] at hok
    cases hcl : classify l <;> simp only [handleLine, handleTop, hcl] at hok
    case blank => exact ih st fm hok (fun x hx => hk x (by simp [hx]))
    case summary v =>
      cases hss : st.summary <;> rw [hss] at hok <;> simp at hok
      have h5 := ih _ fm hok (fun x hx => hk x (by simp [hx]))
      exact h5
    case tagsKey => exact absurd (classify_eq_tagsKey l hcl) hkl.1
    case project v => exact absurd (classify_eq_project l v hcl) (by simp [hkl.2.2.2.1])
    case priority v => exact absurd (classify_eq_priority l v hcl) (by simp [hkl.2.2.2.2.1])
    case delegatedto v =>
      exact absurd (classify_eq_delegatedto l v hcl) (by simp [hkl.2.2.2.2.2])
    case subtasksKey => exact absurd (classify_eq_subtasksKey l hcl) hkl.2.1
    case dependenciesKey => exact absurd (classify_eq_dependenciesKey l hcl) hkl.2.2.1
    case created v =>
      cases hss : st.created <;> cases hts : parseTS v <;> rw [hss, hts] at hok <;> simp at hok
      have h5 := ih _ fm hok (fun x hx => hk x (by simp [hx]))
      exact h5
    case resolved v =>
      exact absurd (classify_eq_resolved l v hcl) (by simp [hkl.2.2.2.2.2.2.1])
    case due v =>
      exact absurd (classify_eq_due l v hcl) (by simp [hkl.2.2.2.2.2.2.2])
    case subText v => simp at hok
    case subDoneRaw v => simp at hok
    case item v => simp at hok
    case other => simp at hok

/-- A header whose lines are all key-free (blank, `summary`, or parseable
`created`), with exactly one `summary` line still to come when the state
lacks one (and none otherwise), and likewise for `created`, parses
successfully, and the parse touches none of the eight optional fields. -/
theorem parseFMLines_keyfree : ∀ (ls : List Str) (st : FMState),
    (∀ l ∈ ls, keyFreeLine l = true) →
    ((st.summary = none ∧ summaryCount ls = 1) ∨
      (st.summary ≠ none ∧ summaryCount ls = 0)) →
    ((st.created = none ∧ createdCount ls = 1) ∨
      (st.created ≠ none ∧ createdCount ls = 0)) →
    ∃ fm, parseFMLines st .top ls = some fm ∧
      fm.tags = st.tags ∧ fm.project = st.project ∧ fm.priority = st.priority ∧
      fm.delegatedto = st.delegatedto ∧ fm.subtasks = st.subtasks ∧
      fm.dependencies = st.dependencies ∧ fm.resolved = st.resolved ∧
      fm.due = st.due := by
  intro ls
  induction ls with
  | nil =>
    intro st hkf hsum hcre
    rcases hsum with ⟨_, h2⟩ | ⟨hsn, _⟩
    · simp [summaryCount] at h2
    rcases hcre with ⟨_, h4⟩ | ⟨hcn, _⟩
    · simp [createdCount] at h4
    cases hss : st.summary with
    | none => exact absurd hss hsn
    | some sv =>
      cases hcc : st.created with
      | none => exact absurd hcc hcn
      | some cv =>
        refine ⟨⟨sv, st.tags, st.project, st.priority, st.delegatedto,
          st.subtasks, st.dependencies, cv, st.resolved, st.due⟩, ?_,
          rfl, rfl, rfl, rfl, rfl, rfl, rfl, rfl⟩
        rw [parseFMLines]
        simp [finalizeFM, hss, hcc]
  | cons l rest ih =>
    intro st hkf hsum hcre
    have hkfl := hkf l (by simp)
    rw [parseFMLines]
    cases hcl : classify l
    case blank =>
      have hseq : summaryCount (l :: rest) = summaryCount rest := by
        simp [summaryCount, List.countP_cons, hcl]
      have hceq : createdCount (l :: rest) = createdCount rest := by
        simp [createdCount, List.countP_cons, hcl]
      rw [hseq] at hsum
      rw [hceq] at hcre
      have hht : handleLine st .top l = some (st, .top) := by
        simp [handleLine, handleTop, hcl]
      rw [hht]
      exact ih st (fun x hx => hkf x (by simp [hx])) hsum hcre
    case summary v =>
      have hseq : summaryCount (l :: rest) = summaryCount rest + 1 := by
        simp [summaryCount, List.countP_cons, hcl]
      have hceq : createdCount (l :: rest) = createdCount rest := by
        simp [createdCount, List.countP_cons, hcl]
      rw [hceq] at hcre
      rcases hsum with ⟨h1, h2⟩ | ⟨h1, h2⟩
      · rw [hseq] at h2
        have h2' : summaryCount rest = 0 := by omega
        have hht : handleLine st .top l =
            some ({ st with summary := some v }, .top) := by
          simp [handleLine, handleTop, hcl, h1]
        rw [hht]
        dsimp only
        have h5 := ih { st with summary := some v }
          (fun x hx => hkf x (by simp [hx]))
          (Or.inr ⟨by simp, h2'⟩) hcre
        obtain ⟨fm, hfm, e1, e2, e3, e4, e5, e6, e7, e8⟩ := h5
        exact ⟨fm, hfm, e1, e2, e3, e4, e5, e6, e7, e8⟩
      · rw [hseq] at h2
        omega
    case created v =>
      simp only [keyFreeLine, hcl] at hkfl
      obtain ⟨d, hd⟩ := Option.isSome_iff_exists.mp hkfl
      have hseq : summaryCount (l :: rest) = summaryCount rest := by
        simp [summaryCount, List.countP_cons, hcl]
      have hceq : createdCount (l :: rest) = createdCount rest + 1 := by
        simp [createdCount, List.countP_cons, hcl]
      rw [hseq] at hsum
      rcases hcre with ⟨h1, h2⟩ | ⟨h1, h2⟩
      · rw [hceq] at h2
        have h2' : createdCount rest = 0 := by omega
        have hht : handleLine st .top l =
            some ({ st with created := some d }, .top) := by
          simp [handleLine, handleTop, hcl, h1, hd]
        rw [hht]
        dsimp only
        have h5 := ih { st with created := some d }
          (fun x hx => hkf x (by simp [hx]))
          hsum (Or.inr ⟨by simp, h2'⟩)
        obtain ⟨fm, hfm, e1, e2, e3, e4, e5, e6, e7, e8⟩ := h5
        exact ⟨fm, hfm, e1, e2, e3, e4, e5, e6, e7, e8⟩
      · rw [hceq] at h2
        omega
    all_goals simp [keyFreeLine, hcl] at hkfl

theorem mem_stripCR_mem (l : Str) : ∀ c ∈ stripCR l, c ∈ l := by
  intro c hc
  unfold stripCR at hc
  split at hc
  · exact List.dropLast_subset l hc
  · exact hc

theorem mem_rustLines_no_nl (s : Str) : ∀ l ∈ rustLines s, '\n' ∉ l := by
  intro l hl
  unfold rustLines at hl
  have hps := mem_splitNL_no_nl s
  split at hl
  · obtain ⟨p, hp, rfl⟩ := List.mem_map.mp hl
    intro hc
    exact hps p (List.dropLast_subset _ hp) (mem_stripCR_mem p _ hc)
  · rcases List.mem_append.mp hl with hl | hl
    · obtain ⟨p, hp, rfl⟩ := List.mem_map.mp hl
      intro hc
      exact hps p (List.dropLast_subset _ hp) (mem_stripCR_mem p _ hc)
    · rcases List.mem_cons.mp hl with rfl | hl
      · cases hgl : (splitNL s).getLast? with
        | none => simp [hgl]
        | some p =>
          simp only [hgl, Option.getD_some]
          exact hps p (mem_of_getLast_eq _ _ hgl)
      · simp at hl

theorem mem_of_mem_dropWhile {α : Type} (p : α → Bool) (x : α) :
    ∀ l : List α, x ∈ l.dropWhile p → x ∈ l := by
  intro l hx
  induction l with
  | nil => simp [List.dropWhile] at hx
  | cons a rest ih =>
    rw [List.dropWhile_cons] at hx
    split at hx
    · exact List.mem_cons_of_mem _ (ih hx)
    · exact hx

theorem mem_dropWhile_of_ne {α : Type} (p : α → Bool) (x : α) (hx : p x = false) :
    ∀ l : List α, x ∈ l → x ∈ l.dropWhile p := by
  intro l hmem
  induction l with
  | nil => simp at hmem
  | cons a rest ih =>
    rw [List.dropWhile_cons]
    split
    · rcases List.mem_cons.mp hmem with rfl | hmem
      · simp_all
      · exact ih hmem
    · exact hmem

theorem trimLeadingNL_joinNL (bs : List Str) (h : ∀ l ∈ bs, '\n' ∉ l) :
    trimLeadingNL (joinNL bs) = joinNL (bs.dropWhile (fun l => l == [])) := by
  induction bs with
  | nil => rfl
  | cons l rest ih =>
    by_cases hl : l = []
    · subst hl
      rw [List.dropWhile_cons]
      simp only [beq_self_eq_true, if_true, reduceIte]
      cases rest with
      | nil => rfl
      | cons r rs =>
        rw [joinNL_cons_of_ne _ _ (by simp), List.nil_append, trimLeadingNL_cons_nl]
        exact ih (fun x hx => h x (by simp [hx]))
    · rw [List.dropWhile_cons]
      rw [if_neg (by simp [hl])]
      apply trimLeadingNL_of_head
      cases l with
      | nil => exact absurd rfl hl
      | cons c cs =>
        have hc : c ≠ '\n' := fun hh => h (c :: cs) (by simp) (by simp [hh])
        cases rest with
        | nil =>
          rw [show joinNL [c :: cs] = c :: cs from rfl]
          simpa using hc
        | cons r rs =>
          rw [joinNL_cons_of_ne _ _ (by simp)]
          simpa using hc

theorem task_from_markdown_eq (content u s : Str) (i : Int) (rest : List Str) (ci : Nat)
    (hlines : rustLines content = DELIM :: rest) (hci : findDelim rest = some ci) :
    task_from_markdown content u s i =
      match parseFrontmatter (joinNL (rest.take ci)) with
      | none => .error .yaml
      | some fm => .ok (buildTask fm u s i
          (if ci + 1 < rest.length then trimLeadingNL (joinNL (rest.drop (ci + 1)))
           else [])) := by
  rw [task_from_markdown, hlines]
  simp only [ne_eq, not_true_eq_false, if_false, ite_false, reduceIte, hci]

theorem task_from_markdown_ok_inv (content u s : Str) (i : Int) (t2 : RsTask)
    (hok : task_from_markdown content u s i = .ok t2) :
    ∃ rest ci fm, rustLines content = DELIM :: rest ∧ findDelim rest = some ci ∧
      parseFrontmatter (joinNL (rest.take ci)) = some fm ∧
      t2 = buildTask fm u s i
        (if ci + 1 < rest.length then trimLeadingNL (joinNL (rest.drop (ci + 1)))
         else []) := by
  rw [task_from_markdown] at hok
  cases hr : rustLines content with
  | nil => rw [hr] at hok; cases hok
  | cons l0 rest =>
    rw [hr] at hok
    dsimp only at hok
    by_cases hd : l0 = DELIM
    · subst hd
      rw [if_neg (by simp)] at hok
      cases hci : findDelim rest with
      | none => rw [hci] at hok; cases hok
      | some ci =>
        rw [hci] at hok
        simp only [] at hok
        cases hfm : parseFrontmatter (joinNL (rest.take ci)) with
        | none => rw [hfm] at hok; cases hok
        | some fm =>
          rw [hfm] at hok
          simp only [Except.ok.injEq] at hok
          exact ⟨rest, ci, fm, rfl, hci, hfm, hok.symm⟩
    · rw [if_pos (by simpa using hd)] at hok
      cases hok

theorem goPrefs_no_bulk (ls : List Str) :
    ∀ sf bc p, goPrefs ls sf bc = some p →
    (∀ l ∈ ls, startsWith (("bulk_commit_strategy: ").data) l = false) →
    p.bulk_commit_strategy = bc.getD BulkCommitStrategy.default := by
  induction ls with
  | nil =>
    intro sf bc p hok hk
    rw [goPrefs] at hok
    cases hok
    rfl
  | cons l rest ih =>
    intro sf bc p hok hk
    rw [goPrefs] at hok
    by_cases h0 : l = []
    · rw [if_pos h0] at hok
      exact ih sf bc p hok (fun x hx => hk x (by simp [hx]))
    rw [if_neg h0] at hok
    by_cases h1 : startsWith (("sync_frequency: ").data) l = true
    · rw [if_pos h1] at hok
      cases hp : parseSyncFrequency (l.drop 16) <;> rw [hp] at hok
      · cases hok
      · exact ih _ bc p hok (fun x hx => hk x (by simp [hx]))
    rw [if_neg h1] at hok
    have h2 : ¬(startsWith (("bulk_commit_strategy: ").data) l = true) := by
      simp [hk l (by simp)]
    rw [if_neg h2] at hok
    by_cases h3 : l.contains ':' = true
    · rw [if_pos h3] at hok
      exact ih sf bc p hok (fun x hx => hk x (by simp [hx]))
    · rw [if_neg h3] at hok
      cases hok

theorem goPrefs_only_bulk (ls : List Str) :
    ∀ sf bc, (∀ l ∈ ls, l = [] ∨ l = ("bulk_commit_strategy: per_task").data) →
    goPrefs ls sf bc = some
      { sync_frequency := sf.getD SyncFrequency.default,
        bulk_commit_strategy :=
          if ("bulk_commit_strategy: per_task").data ∈ ls then BulkCommitStrategy.perTask
          else bc.getD BulkCommitStrategy.default } := by
  induction ls with
  | nil =>
    intro sf bc hk
    rw [goPrefs]
    simp
  | cons l rest ih =>
    intro sf bc hk
    rw [goPrefs]
    rcases hk l (by simp) with rfl | rfl
    · rw [if_pos rfl, ih sf bc (fun x hx => hk x (by simp [hx]))]
      have hne : ¬(("bulk_commit_strategy: per_task").data = ([] : Str)) := by decide
      by_cases hmem : ("bulk_commit_strategy: per_task").data ∈ rest
      · simp [hmem]
      · simp [hmem, hne]
    · rw [if_neg (by decide)]
      rw [if_neg (by decide : ¬(startsWith (("sync_frequency: ").data)
            (("bulk_commit_strategy: per_task").data) = true))]
      rw [if_pos (by decide : startsWith (("bulk_commit_strategy: ").data)
            (("bulk_commit_strategy: per_task").data) = true)]
      rw [show parseBulkCommitStrategy ((("bulk_commit_strategy: per_task").data).drop 22) =
            some .perTask from by decide]
      dsimp only
      rw [ih sf (some .perTask) (fun x hx => hk x (by simp [hx]))]
      have : (if ("bulk_commit_strategy: per_task").data ∈ rest then BulkCommitStrategy.perTask
          else (some BulkCommitStrategy.perTask).getD BulkCommitStrategy.default) =
          BulkCommitStrategy.perTask := by
        by_cases hmem : ("bulk_commit_strategy: per_task").data ∈ rest <;> simp [hmem]
      rw [this]
      simp

/-- Claim C2: decoding fails with a `ParseError` when the text is empty or its
first line is not exactly `---`, and fails with a `ParseError` when no later
`---` line exists; otherwise it proceeds to parse the header between the two
delimiter lines. -/
theorem c2_delimiter_errors (content u s : Str) (i : Int) :
    ((rustLines content).head? ≠ some DELIM →
      task_from_markdown content u s i =
        .error (.parse (("missing frontmatter delimiter").data))) ∧
    (∀ rest, rustLines content = DELIM :: rest → findDelim rest = none →
      task_from_markdown content u s i =
        .error (.parse (("missing closing frontmatter delimiter").data))) ∧
    (∀ rest ci, rustLines content = DELIM :: rest → findDelim rest = some ci →
      task_from_markdown content u s i =
        match parseFrontmatter (joinNL (rest.take ci)) with
        | none => .error .yaml
        | some fm => .ok (buildTask fm u s i
            (if ci + 1 < rest.length then trimLeadingNL (joinNL (rest.drop (ci + 1)))
             else []))) := by
  refine ⟨?_, ?_, ?_⟩
  · intro hhead
    cases hr : rustLines content with
    | nil => rw [task_from_markdown, hr]
    | cons l0 rest =>
      rw [hr] at hhead
      have hne : l0 ≠ DELIM := fun hh => hhead (by rw [hh]; rfl)
      rw [task_from_markdown, hr]
      dsimp only
      rw [if_pos (by simpa using hne)]
  · intro rest hr hfd
    rw [task_from_markdown, hr]
    dsimp only
    rw [if_neg (by simp), hfd]
  · intro rest ci hr hfd
    exact task_from_markdown_eq content u s i rest ci hr hfd

/-- Witness for C2 at the empty input. -/
theorem c2_witness :
    task_from_markdown [] [] [] 0 =
      .error (.parse (("missing frontmatter delimiter").data)) :=
  (c2_delimiter_errors [] [] [] 0).1 (by decide)

/-- Claim C3: the preferences loader never fails and always returns a value:
if the config directory is undeterminable, the read fails, or the content
fails to decode, it returns the full default record; otherwise it returns
the decoded record. -/
theorem c3_load_never_fails (cd : Option Str) (rf : Str → Option Str) :
    (cd = none → Preferences.load cd rf = Preferences.default) ∧
    (∀ d, cd = some d → rf (Preferences.configPathOf d) = none →
      Preferences.load cd rf = Preferences.default) ∧
    (∀ d c, cd = some d → rf (Preferences.configPathOf d) = some c →
      decodePreferences c = none → Preferences.load cd rf = Preferences.default) ∧
    (∀ d c p, cd = some d → rf (Preferences.configPathOf d) = some c →
      decodePreferences c = some p → Preferences.load cd rf = p) := by
  refine ⟨?_, ?_, ?_, ?_⟩
  · intro h
    rw [h, Preferences.load]
  · intro d hcd hrf
    rw [hcd, Preferences.load, hrf]
  · intro d c hcd hrf hdec
    rw [hcd, Preferences.load, hrf]
    dsimp only
    rw [hdec]
    rfl
  · intro d c p hcd hrf hdec
    rw [hcd, Preferences.load, hrf]
    dsimp only
    rw [hdec]
    rfl

/-- Witness for C3 with no config directory. -/
theorem c3_witness :
    Preferences.load none (fun _ => none) = Preferences.default :=
  (c3_load_never_fails none (fun _ => none)).1 rfl

/-- Claim C5: with empty notes the encoded text ends at the closing delimiter
line; with non-empty notes the closing delimiter line is followed by one
blank line and the notes verbatim, with exactly one newline appended when
the notes do not already end in one. -/
theorem c5_notes_suffix (t : RsTask) :
    (t.notes = [] → task_to_markdown t =
      .ok (("---\n").data ++ serde_yaml_to_string (taskFM t) ++ ("---\n").data)) ∧
    (t.notes ≠ [] → t.notes.getLast? = some '\n' → task_to_markdown t =
      .ok (("---\n").data ++ serde_yaml_to_string (taskFM t) ++ ("---\n").data ++
        '\n' :: t.notes)) ∧
    (t.notes ≠ [] → t.notes.getLast? ≠ some '\n' → task_to_markdown t =
      .ok (("---\n").data ++ serde_yaml_to_string (taskFM t) ++ ("---\n").data ++
        '\n' :: (t.notes ++ ['\n']))) := by
  refine ⟨?_, ?_, ?_⟩
  · intro hn
    rw [task_to_markdown]
    rw [if_pos (by simp [hn])]
  · intro hn hl
    rw [task_to_markdown]
    rw [if_neg (by simp [List.isEmpty_iff, hn]), if_pos hl]
    try simp [List.append_assoc]
  · intro hn hl
    rw [task_to_markdown]
    rw [if_neg (by simp [List.isEmpty_iff, hn]), if_neg hl]
    try simp [List.append_assoc]

/-- Witness for C5 on a concrete task with empty notes. -/
theorem c5_witness :
    task_to_markdown
      { uuid := ("u").data, status := ("pending").data, write_pending := false, id := 1,
        deleted := false, summary := ("a").data, notes := [], tags := [],
        project := [], priority := [], delegated_to := [], subtasks := [],
        dependencies := [], created := ⟨2024, 1, 1, 0, 0, 0⟩, resolved := none,
        due := none, filtered := false } =
      .ok (("---\n").data ++
        serde_yaml_to_string (taskFM
          { uuid := ("u").data, status := ("pending").data, write_pending := false, id := 1,
            deleted := false, summary := ("a").data, notes := [], tags := [],
            project := [], priority := [], delegated_to := [], subtasks := [],
            dependencies := [], created := ⟨2024, 1, 1, 0, 0, 0⟩, resolved := none,
            due := none, filtered := false }) ++ ("---\n").data) :=
  (c5_notes_suffix _).1 rfl

/-- Claim C6: for every accepted input, the notes equal the lines strictly
after the closing delimiter joined with newlines, with leading newline
characters stripped; if nothing follows the closing delimiter the notes are
empty. -/
theorem c6_notes_extraction (content u s : Str) (i : Int) (t2 : RsTask)
    (rest : List Str) (ci : Nat)
    (hok : task_from_markdown content u s i = .ok t2)
    (hlines : rustLines content = DELIM :: rest)
    (hci : findDelim rest = some ci) :
    t2.notes = if ci + 1 < rest.length
      then trimLeadingNL (joinNL (rest.drop (ci + 1))) else [] := by
  obtain ⟨rest2, ci2, fm, h1, h2, h3, h4⟩ := task_from_markdown_ok_inv content u s i t2 hok
  rw [hlines] at h1
  obtain ⟨rfl⟩ : rest2 = rest := by
    cases h1
    rfl
  rw [hci] at h2
  obtain ⟨rfl⟩ : ci2 = ci := by
    cases h2
    rfl
  rw [h4]
  rfl

/-- Witness for C6 on a concrete decode. -/
theorem c6_witness :
    (buildTask ⟨("a").data, none, none, none, none, none, none,
        ⟨2024, 1, 1, 0, 0, 0⟩, none, none⟩ ("u").data ("p").data 1
        (("x").data)).notes =
      if 2 + 1 < 4 then
        trimLeadingNL (joinNL ([[], ("x").data] : List Str))
      else [] :=
  c6_notes_extraction
    (("---\nsummary: a\ncreated: 2024-01-01T00:00:00Z\n---\n\nx\n").data)
    (("u").data) (("p").data) 1 _
    [("summary: a").data, ("created: 2024-01-01T00:00:00Z").data, DELIM, [], ("x").data]
    2 (by decide) (by decide) (by decide)

/-- Claim C7: the encoded text is a function of the persistable fields only
(independent of the six transient fields), and every successful decode takes
its unique id, status and display id verbatim from the caller and sets the
deleted, pending-write and filtered flags to false. -/
theorem c7_transient_fields :
    (∀ (t : RsTask) (u2 s2 : Str) (wp : Bool) (i2 : Int) (dl fl : Bool),
      task_to_markdown
        { t with
          uuid := u2
          status := s2
          write_pending := wp
          id := i2
          deleted := dl
          filtered := fl } = task_to_markdown t) ∧
    (∀ content u s i t2, task_from_markdown content u s i = .ok t2 →
      t2.uuid = u ∧ t2.status = s ∧ t2.id = i ∧
      t2.write_pending = false ∧ t2.deleted = false ∧ t2.filtered = false) := by
  constructor
  · intro t u2 s2 wp i2 dl fl
    rfl
  · intro content u s i t2 hok
    obtain ⟨rest, ci, fm, h1, h2, h3, h4⟩ := task_from_markdown_ok_inv content u s i t2 hok
    rw [h4]
    exact ⟨rfl, rfl, rfl, rfl, rfl, rfl⟩

/-- Witness for C7 on a concrete decode. -/
theorem c7_witness :
    (buildTask ⟨("a").data, none, none, none, none, none, none,
        ⟨2024, 1, 1, 0, 0, 0⟩, none, none⟩ ("u").data ("p").data 1 []).uuid = ("u").data ∧
    (buildTask ⟨("a").data, none, none, none, none, none, none,
        ⟨2024, 1, 1, 0, 0, 0⟩, none, none⟩ ("u").data ("p").data 1 []).status = ("p").data ∧
    (buildTask ⟨("a").data, none, none, none, none, none, none,
        ⟨2024, 1, 1, 0, 0, 0⟩, none, none⟩ ("u").data ("p").data 1 []).id = 1 ∧
    (buildTask ⟨("a").data, none, none, none, none, none, none,
        ⟨2024, 1, 1, 0, 0, 0⟩, none, none⟩ ("u").data ("p").data 1 []).write_pending = false ∧
    (buildTask ⟨("a").data, none, none, none, none, none, none,
        ⟨2024, 1, 1, 0, 0, 0⟩, none, none⟩ ("u").data ("p").data 1 []).deleted = false ∧
    (buildTask ⟨("a").data, none, none, none, none, none, none,
        ⟨2024, 1, 1, 0, 0, 0⟩, none, none⟩ ("u").data ("p").data 1 []).filtered = false :=
  c7_transient_fields.2
    (("---\nsummary: a\ncreated: 2024-01-01T00:00:00Z\n---\n").data)
    (("u").data) (("p").data) 1 _ (by decide)

/-- Counterexample to claim C1 as stated: a task whose notes end with a
newline encodes successfully, but decoding the encoding yields notes without
that trailing newline, so the notes field is not reproduced. -/
theorem c1_counterexample :
    (task_to_markdown
      { uuid := ("u").data, status := ("pending").data, write_pending := false, id := 1,
        deleted := false, summary := ("a").data, notes := ('x' :: '\n' :: []), tags := [],
        project := [], priority := [], delegated_to := [], subtasks := [],
        dependencies := [], created := ⟨2024, 1, 1, 0, 0, 0⟩, resolved := none,
        due := none, filtered := false }).bind
      (fun md => (task_from_markdown md (("u").data) (("pending").data) 1).map
        RsTask.notes) = .ok ('x' :: []) ∧ ('x' :: []) ≠ ('x' :: '\n' :: []) :=
  ⟨by decide, by decide⟩

/-- Claim C1 (amended): for every task whose field values are well formed
(plain-scalar-safe strings, valid timestamps) and whose notes neither begin
nor end with a newline, decoding the encoding with caller-supplied unique
id, status and display id succeeds and reproduces every persistable field
exactly. -/
theorem c1_roundtrip_amended (t : RsTask) (u s : Str) (i : Int) (h : TaskWF t) :
    ∃ md t2, task_to_markdown t = .ok md ∧ task_from_markdown md u s i = .ok t2 ∧
      t2.summary = t.summary ∧ t2.notes = t.notes ∧ t2.tags = t.tags ∧
      t2.project = t.project ∧ t2.priority = t.priority ∧
      t2.delegated_to = t.delegated_to ∧ t2.subtasks = t.subtasks ∧
      t2.dependencies = t.dependencies ∧ t2.created = t.created ∧
      t2.resolved = t.resolved ∧ t2.due = t.due := by
  have hlast : t.notes.getLast? ≠ some '\n' := h.2.2.2.2.2.2.2.2.2.2.2.1
  refine ⟨_, _, task_to_markdown_structured t hlast, roundtrip_core t u s i h,
    ?_, ?_, ?_, ?_, ?_, ?_, ?_, ?_, ?_, ?_, ?_⟩ <;>
    simp [buildTask, taskFM, emptyOpt_getD, emptyOpt_getD2]

/-- Witness for C1 on a fully populated concrete task. -/
theorem c1_witness :
    ∃ md t2,
      task_to_markdown
        { uuid := ("test-uuid").data, status := ("pending").data, write_pending := false,
          id := 1, deleted := false, summary := ("Test task").data,
          notes := ("This is a note\nWith multiple lines").data,
          tags := [("tag1").data, ("tag2").data], project := ("myproject").data,
          priority := ("H").data, delegated_to := ("someone").data,
          subtasks := [⟨("s1").data, true⟩], dependencies := [("dep1").data],
          created := ⟨2024, 1, 1, 0, 0, 0⟩, resolved := some ⟨2025, 2, 3, 4, 5, 6⟩,
          due := some ⟨2026, 1, 2, 3, 4, 5⟩, filtered := false } = .ok md ∧
      task_from_markdown md (("test-uuid").data) (("pending").data) 1 = .ok t2 ∧
      t2.summary = ("Test task").data ∧
      t2.notes = ("This is a note\nWith multiple lines").data ∧
      t2.tags = [("tag1").data, ("tag2").data] ∧
      t2.project = ("myproject").data ∧
      t2.priority = ("H").data ∧
      t2.delegated_to = ("someone").data ∧
      t2.subtasks = [⟨("s1").data, true⟩] ∧
      t2.dependencies = [("dep1").data] ∧
      t2.created = ⟨2024, 1, 1, 0, 0, 0⟩ ∧
      t2.resolved = some ⟨2025, 2, 3, 4, 5, 6⟩ ∧
      t2.due = some ⟨2026, 1, 2, 3, 4, 5⟩ :=
  c1_roundtrip_amended
    { uuid := ("test-uuid").data, status := ("pending").data, write_pending := false,
      id := 1, deleted := false, summary := ("Test task").data,
      notes := ("This is a note\nWith multiple lines").data,
      tags := [("tag1").data, ("tag2").data], project := ("myproject").data,
      priority := ("H").data, delegated_to := ("someone").data,
      subtasks := [⟨("s1").data, true⟩], dependencies := [("dep1").data],
      created := ⟨2024, 1, 1, 0, 0, 0⟩, resolved := some ⟨2025, 2, 3, 4, 5, 6⟩,
      due := some ⟨2026, 1, 2, 3, 4, 5⟩, filtered := false }
    (("test-uuid").data) (("pending").data) 1 (by decide)

/-- Claim C4: encoding a task with empty optional fields produces a header
consisting of exactly the `summary` and `created` lines (none of the six
optional keys, no null/empty marker); conversely decoding a document whose
header lacks all of those keys succeeds whenever the header consists of one
`summary` line and one `created` line (in either order, blank lines allowed)
and yields the empty value for each optional field; and every successful
decode of a header lacking those keys yields the empty values. -/
theorem c4_empty_omission :
    (∀ t : RsTask, t.tags = [] → t.project = [] → t.priority = [] →
      t.delegated_to = [] → t.subtasks = [] → t.dependencies = [] →
      t.resolved = none → t.due = none →
      serde_yaml_to_string (taskFM t) =
        unlines [kSummary ++ t.summary, kCreated ++ renderTS t.created]) ∧
    (∀ hs bs : List Str, ∀ u s : Str, ∀ i : Int,
      (∀ l ∈ hs ++ bs, '\n' ∉ l ∧ l.getLast? ≠ some '\r') →
      (∀ l ∈ hs, keyFreeLine l = true) →
      summaryCount hs = 1 → createdCount hs = 1 →
      ∃ t2, task_from_markdown (unlines (DELIM :: (hs ++ DELIM :: bs))) u s i =
          .ok t2 ∧
        t2.tags = [] ∧ t2.project = [] ∧ t2.priority = [] ∧
        t2.delegated_to = [] ∧ t2.subtasks = [] ∧ t2.dependencies = [] ∧
        t2.resolved = none ∧ t2.due = none) ∧
    (∀ content u s i t2 rest ci, task_from_markdown content u s i = .ok t2 →
      rustLines content = DELIM :: rest → findDelim rest = some ci →
      (∀ l ∈ rest.take ci, l ≠ kTags ∧ l ≠ kSubtasks ∧ l ≠ kDependencies ∧
        startsWith kProject l = false ∧ startsWith kPriority l = false ∧
        startsWith kDelegatedto l = false ∧ startsWith kResolved l = false ∧
        startsWith kDue l = false) →
      t2.tags = [] ∧ t2.project = [] ∧ t2.priority = [] ∧ t2.delegated_to = [] ∧
        t2.subtasks = [] ∧ t2.dependencies = [] ∧ t2.resolved = none ∧
        t2.due = none) := by
  refine ⟨?_, ?_, ?_⟩
  · intro t h1 h2 h3 h4 h5 h6 h7 h8
    rw [serde_yaml_to_string, yamlLines, taskFM]
    simp [optLines, h1, h2, h3, h4, h5, h6, h7, h8]
  · intro hs bs u s i hclean hkf hsc hcc
    have hne : hs ≠ [] := by
      intro hh
      rw [hh] at hsc
      simp [summaryCount] at hsc
    have hnd : DELIM ∉ hs := fun hh => absurd (hkf DELIM hh) (by decide)
    obtain ⟨fm, hfm, e1, e2, e3, e4, e5, e6, e7, e8⟩ :=
      parseFMLines_keyfree hs initFM hkf (Or.inl ⟨rfl, hsc⟩) (Or.inl ⟨rfl, hcc⟩)
    refine ⟨buildTask fm u s i (if bs = [] then [] else trimLeadingNL (joinNL bs)),
      ?_, ?_, ?_, ?_, ?_, ?_, ?_, ?_, ?_⟩
    · rw [task_from_markdown_structured hs bs u s i hclean hnd hne, hfm]
    · show fm.tags.getD [] = []
      rw [e1]
      rfl
    · show fm.project.getD [] = []
      rw [e2]
      rfl
    · show fm.priority.getD [] = []
      rw [e3]
      rfl
    · show fm.delegatedto.getD [] = []
      rw [e4]
      rfl
    · show fm.subtasks.getD [] = []
      rw [e5]
      rfl
    · show fm.dependencies.getD [] = []
      rw [e6]
      rfl
    · show fm.resolved = none
      rw [e7]
      rfl
    · show fm.due = none
      rw [e8]
      rfl
  · intro content u s i t2 rest ci hok hr hci hkeys
    obtain ⟨rest2, ci2, fm, h1, h2, h3, h4⟩ := task_from_markdown_ok_inv content u s i t2 hok
    rw [hr] at h1
    obtain ⟨rfl⟩ : rest2 = rest := by
      cases h1
      rfl
    rw [hci] at h2
    obtain ⟨rfl⟩ : ci2 = ci := by
      cases h2
      rfl
    by_cases hhs : rest.take ci = []
    · rw [hhs] at h3
      rw [show parseFrontmatter (joinNL ([] : List Str)) = none from rfl] at h3
      cases h3
    · have hnn : ∀ l ∈ rest.take ci, '\n' ∉ l := by
        intro l hl
        apply mem_rustLines_no_nl content
        rw [hr]
        exact List.mem_cons_of_mem _ (List.take_subset _ _ hl)
      rw [parseFrontmatter, splitNL_joinNL _ hhs hnn] at h3
      obtain ⟨e1, e2, e3, e4, e5, e6, e7, e8⟩ :=
        parseFMLines_preserve _ initFM fm h3 hkeys
      simp only [initFM] at e1 e2 e3 e4 e5 e6 e7 e8
      rw [h4]
      simp [buildTask, e1, e2, e3, e4, e5, e6, e7, e8]

/-- Witness for C4: the encode direction on a concrete task with all
optional fields empty, the decode-success direction on a concrete key-free
header, and the key-absence direction on a concrete successful decode. -/
theorem c4_witness :
    (serde_yaml_to_string (taskFM
      { uuid := ("u").data, status := ("p").data, write_pending := false, id := 1,
        deleted := false, summary := ("a").data, notes := [], tags := [],
        project := [], priority := [], delegated_to := [], subtasks := [],
        dependencies := [], created := ⟨2024, 1, 1, 0, 0, 0⟩, resolved := none,
        due := none, filtered := false }) =
      unlines [kSummary ++ ("a").data,
        kCreated ++ renderTS ⟨2024, 1, 1, 0, 0, 0⟩]) ∧
    (∃ t2, task_from_markdown (unlines (DELIM ::
        ([("summary: a").data, ("created: 2024-01-01T00:00:00Z").data] ++
          DELIM :: [("note").data]))) (("u").data) (("p").data) 1 = .ok t2 ∧
      t2.tags = [] ∧ t2.project = [] ∧ t2.priority = [] ∧
      t2.delegated_to = [] ∧ t2.subtasks = [] ∧ t2.dependencies = [] ∧
      t2.resolved = none ∧ t2.due = none) ∧
    (({ uuid := ("u").data, status := ("p").data, write_pending := false,
        id := 1, deleted := false, summary := ("b").data, notes := [],
        tags := [], project := [], priority := [], delegated_to := [],
        subtasks := [], dependencies := [], created := ⟨2024, 1, 1, 0, 0, 0⟩,
        resolved := none, due := none, filtered := false } : RsTask).tags = [] ∧
      (({ uuid := ("u").data, status := ("p").data, write_pending := false,
          id := 1, deleted := false, summary := ("b").data, notes := [],
          tags := [], project := [], priority := [], delegated_to := [],
          subtasks := [], dependencies := [], created := ⟨2024, 1, 1, 0, 0, 0⟩,
          resolved := none, due := none, filtered := false } : RsTask).project = [])) :=
  ⟨c4_empty_omission.1
    { uuid := ("u").data, status := ("p").data, write_pending := false, id := 1,
      deleted := false, summary := ("a").data, notes := [], tags := [],
      project := [], priority := [], delegated_to := [], subtasks := [],
      dependencies := [], created := ⟨2024, 1, 1, 0, 0, 0⟩, resolved := none,
      due := none, filtered := false }
    rfl rfl rfl rfl rfl rfl rfl rfl,
   c4_empty_omission.2.1
    [("summary: a").data, ("created: 2024-01-01T00:00:00Z").data]
    [("note").data] (("u").data) (("p").data) 1
    (by decide) (by decide) (by decide) (by decide),
   by
    have h3 := c4_empty_omission.2.2
      (("---\nsummary: b\ncreated: 2024-01-01T00:00:00Z\n---\n").data)
      (("u").data) (("p").data) 1
      { uuid := ("u").data, status := ("p").data, write_pending := false,
        id := 1, deleted := false, summary := ("b").data, notes := [],
        tags := [], project := [], priority := [], delegated_to := [],
        subtasks := [], dependencies := [], created := ⟨2024, 1, 1, 0, 0, 0⟩,
        resolved := none, due := none, filtered := false }
      [("summary: b").data, ("created: 2024-01-01T00:00:00Z").data, DELIM] 2
      (by decide) (by decide) (by decide) (by decide)
    exact ⟨h3.1, h3.2.1⟩⟩

/-- Counterexample to claim C8 as stated: a config file that decodes
successfully but omits the `bulk_commit_strategy` key yields the field-level
enum default `single`, not the record-level `per_task`. -/
theorem c8_counterexample :
    Preferences.load (some []) (fun _ => some (("sync_frequency: never").data)) =
      { sync_frequency := .never, bulk_commit_strategy := .single } ∧
    BulkCommitStrategy.single ≠ BulkCommitStrategy.perTask :=
  ⟨by decide, by decide⟩

/-- Claim C8 (amended): the record-level default `per_task` governs the
loader's failure paths (no config directory, unreadable file, undecodable
content), but when the file decodes successfully and omits the
`bulk_commit_strategy` key, the field-level enum default `single` applies. -/
theorem c8_bulk_defaults :
    (∀ rf, (Preferences.load none rf).bulk_commit_strategy = .perTask) ∧
    (∀ d rf, rf (Preferences.configPathOf d) = none →
      (Preferences.load (some d) rf).bulk_commit_strategy = .perTask) ∧
    (∀ d rf c, rf (Preferences.configPathOf d) = some c → decodePreferences c = none →
      (Preferences.load (some d) rf).bulk_commit_strategy = .perTask) ∧
    (∀ c p, decodePreferences c = some p →
      (∀ l ∈ splitNL c, startsWith (("bulk_commit_strategy: ").data) l = false) →
      p.bulk_commit_strategy = .single) := by
  refine ⟨?_, ?_, ?_, ?_⟩
  · intro rf
    rfl
  · intro d rf h
    rw [Preferences.load, h]
    rfl
  · intro d rf c h1 h2
    rw [Preferences.load, h1]
    dsimp only
    rw [h2]
    rfl
  · intro c p hdec hk
    have h5 := goPrefs_no_bulk (splitNL c) none none p hdec hk
    simpa [BulkCommitStrategy.default] using h5

/-- Witness for C8 with an unreadable file. -/
theorem c8_witness :
    (Preferences.load (some []) (fun _ => none)).bulk_commit_strategy =
      BulkCommitStrategy.perTask :=
  c8_bulk_defaults.2.1 [] (fun _ => none) rfl

/-- Claim C9: a preferences file whose content sets only
`bulk_commit_strategy: per_task` loads as `sync_frequency = never` (the
field default) and `bulk_commit_strategy = per_task` (the explicit value). -/
theorem c9_only_bulk_key (d : Str) (rf : Str → Option Str) (c : Str)
    (hrf : rf (Preferences.configPathOf d) = some c)
    (hlines : ∀ l ∈ splitNL c, l = [] ∨ l = ("bulk_commit_strategy: per_task").data)
    (hbulk : ("bulk_commit_strategy: per_task").data ∈ splitNL c) :
    Preferences.load (some d) rf =
      { sync_frequency := .never, bulk_commit_strategy := .perTask } := by
  rw [Preferences.load, hrf]
  dsimp only
  rw [decodePreferences, goPrefs_only_bulk (splitNL c) none none hlines]
  rw [if_pos hbulk]
  rfl

/-- Witness for C9 on the exact one-line file. -/
theorem c9_witness :
    Preferences.load (some [])
      (fun _ => some (("bulk_commit_strategy: per_task").data)) =
      { sync_frequency := .never, bulk_commit_strategy := .perTask } :=
  c9_only_bulk_key [] _ (("bulk_commit_strategy: per_task").data) rfl
    (by decide) (by decide)

/-- Claim C10: the closing delimiter is the first `---` line after line 0,
so `---` lines that occur after it are not treated as delimiters and appear
verbatim inside the decoded notes. -/
theorem c10_later_delimiters (hs bs : List Str) (u s : Str) (i : Int)
    (fm : TaskFrontmatter)
    (hclean : ∀ l ∈ hs ++ bs, '\n' ∉ l ∧ l.getLast? ≠ some '\r')
    (hnd : DELIM ∉ hs) (hne : hs ≠ [])
    (hparse : parseFMLines initFM .top hs = some fm)
    (hdelim : DELIM ∈ bs) :
    ∃ t2, task_from_markdown (unlines (DELIM :: (hs ++ DELIM :: bs))) u s i = .ok t2 ∧
      t2.notes = joinNL (bs.dropWhile (fun l => l == [])) ∧
      DELIM ∈ splitNL t2.notes := by
  have hbs : bs ≠ [] := fun hh => by simp [hh] at hdelim
  have hnlbs : ∀ l ∈ bs, '\n' ∉ l := fun l hl =>
    (hclean l (List.mem_append.mpr (Or.inr hl))).1
  have hnotes : trimLeadingNL (joinNL bs) = joinNL (bs.dropWhile (fun l => l == [])) :=
    trimLeadingNL_joinNL bs hnlbs
  have hd2 : DELIM ∈ bs.dropWhile (fun l => l == []) :=
    mem_dropWhile_of_ne _ _ (by decide) bs hdelim
  have hds : bs.dropWhile (fun l => l == []) ≠ [] := List.ne_nil_of_mem hd2
  refine ⟨buildTask fm u s i (trimLeadingNL (joinNL bs)), ?_, ?_, ?_⟩
  · rw [task_from_markdown_structured hs bs u s i hclean hnd hne, hparse]
    dsimp only
    rw [if_neg hbs]
  · exact hnotes
  · show DELIM ∈ splitNL (trimLeadingNL (joinNL bs))
    rw [hnotes, splitNL_joinNL _ hds
      (fun l hl => hnlbs l (mem_of_mem_dropWhile _ _ _ hl))]
    exact hd2

/-- Witness for C10 on a concrete input whose body contains a `---` line. -/
theorem c10_witness :
    ∃ t2, task_from_markdown (unlines (DELIM ::
        ([("summary: a").data, ("created: 2024-01-01T00:00:00Z").data] ++ DELIM ::
          [("x").data, DELIM, ("y").data]))) (("u").data) (("p").data) 1 = .ok t2 ∧
      t2.notes = joinNL (([("x").data, DELIM, ("y").data] : List Str).dropWhile
        (fun l => l == [])) ∧
      DELIM ∈ splitNL t2.notes :=
  c10_later_delimiters
    [("summary: a").data, ("created: 2024-01-01T00:00:00Z").data]
    [("x").data, DELIM, ("y").data] (("u").data) (("p").data) 1
    ⟨("a").data, none, none, none, none, none, none, ⟨2024, 1, 1, 0, 0, 0⟩, none, none⟩
    (by decide) (by decide) (by decide) (by decide) (by decide)
